import Mathlib

/-!
Verification development for the 2D contour-reconstruction engine of the
dxf-3d-viewer repository (`src/frontend/app.js`).

The JavaScript source is shallowly embedded over exact rationals: every
IEEE-754 double of the source is modelled as a `ℚ` value and floating-point
rounding is ignored, `THREE.Vector2` becomes `ℚ × ℚ`, JS arrays become
`List`s, the insertion-ordered `Map` becomes an association list with
insert-or-update semantics, and the `-1` parent sentinel becomes
`Option ℕ`.  Euclidean-distance comparisons (`distanceTo`, `Math.hypot`)
are modelled by comparing squared distances, which is exact for the
non-negative thresholds used by the source.  Polyline *lengths* (sums of
square roots, used only by the contour cleaner's length filter and the
cluster score) are not rational; they are supplied through an explicit
length-function parameter, instantiated in concrete statements with values
that agree with the Euclidean length on the (axis-aligned) data involved.

The reducibility override below only affects elaboration-time evaluation
(`decide`); it does not change what the kernel accepts.
-/

set_option allowUnsafeReducibility true
attribute [semireducible] Rat.add Rat.mul Rat.sub Rat.div Rat.inv Rat.ofScientific

set_option maxRecDepth 100000

namespace DxfViewer

/-- A 2D point (JS `THREE.Vector2`, coordinates exact rationals). -/
abbrev Pt := ℚ × ℚ

/-- One shoelace term `a.x * b.y - b.x * a.y` (the summand of JS
`polygonAreaSigned`). -/
def cross (a b : Pt) : ℚ := a.1 * b.2 - b.1 * a.2

/-- Sum of shoelace terms over consecutive pairs of an open point list
(the non-wrapping part of the JS loop). -/
def sopen : List Pt → ℚ
  | a :: b :: t => cross a b + sopen (b :: t)
  | _ => 0

/-- Full cyclic shoelace sum: consecutive terms plus the wrap-around term
`cross last first`, exactly the JS accumulation with `(i + 1) % n`. -/
def shoelaceSum : List Pt → ℚ
  | [] => 0
  | a :: t => sopen (a :: t) + cross ((a :: t).getLastD a) a

/-- JS `polygonAreaSigned(openPts)`: `0` for fewer than 3 points, else half
the cyclic shoelace sum. -/
def polygonAreaSigned (l : List Pt) : ℚ :=
  if l.length < 3 then 0 else shoelaceSum l / 2

lemma cross_self (a : Pt) : cross a a = 0 := by unfold cross; ring

lemma cross_antisymm (a b : Pt) : cross b a = -cross a b := by
  unfold cross; ring

lemma getLastD_indep {α : Type} (l : List α) (hl : l ≠ []) (d d' : α) :
    l.getLastD d = l.getLastD d' := by
  cases l with
  | nil => exact absurd rfl hl
  | cons a t =>
    rw [List.getLastD_eq_getLast?, List.getLastD_eq_getLast?,
      List.getLast?_eq_getLast (a :: t) (by simp)]
    rfl

lemma sopen_append_single (l : List Pt) (x : Pt) :
    sopen (l ++ [x]) = sopen l + cross (l.getLastD x) x := by
  induction l with
  | nil => simp [sopen, cross_self]
  | cons a t ih =>
    cases t with
    | nil => simp [sopen]
    | cons b s =>
      have : (a :: b :: s) ++ [x] = a :: ((b :: s) ++ [x]) := by simp
      rw [this]
      show cross a b + sopen ((b :: s) ++ [x]) = _
      rw [ih]
      have h1 : (a :: b :: s).getLastD x = (b :: s).getLastD x := by
        rw [List.getLastD_cons, getLastD_indep (b :: s) (by simp) a x]
      rw [h1]
      show _ = cross a b + sopen (b :: s) + cross ((b :: s).getLastD x) x
      ring

lemma sopen_reverse (l : List Pt) : sopen l.reverse = -sopen l := by
  induction l with
  | nil => simp [sopen]
  | cons a t ih =>
    rw [List.reverse_cons, sopen_append_single, ih]
    cases t with
    | nil => simp [sopen, cross_self]
    | cons b s =>
      have h1 : (b :: s).reverse.getLastD a = b := by
        rw [List.getLastD_eq_getLast?, List.getLast?_reverse]
        simp
      rw [h1]
      show _ = -(cross a b + sopen (b :: s))
      rw [cross_antisymm]
      ring

lemma shoelaceSum_reverse (l : List Pt) : shoelaceSum l.reverse = -shoelaceSum l := by
  cases l with
  | nil => simp [shoelaceSum]
  | cons a t =>
    have hne : (a :: t).reverse ≠ [] := by simp
    cases hrev : (a :: t).reverse with
    | nil => exact absurd hrev hne
    | cons b s =>
      rw [shoelaceSum]
      have hs : sopen (b :: s) = -sopen (a :: t) := by
        rw [← hrev]; exact sopen_reverse _
      have hlast : (b :: s).getLastD b = a := by
        rw [List.getLastD_eq_getLast?, ← hrev, List.getLast?_reverse]
        simp
      have hhead : b = (a :: t).getLastD a := by
        have h : ((a :: t).reverse).head? = some b := by rw [hrev]; simp
        rw [List.head?_reverse] at h
        rw [List.getLastD_eq_getLast?, h]
        rfl
      rw [hs, hlast, hhead]
      have hsum : shoelaceSum (a :: t) =
          sopen (a :: t) + cross ((a :: t).getLastD a) a := rfl
      rw [hsum, cross_antisymm]
      ring

lemma polygonAreaSigned_reverse (l : List Pt) :
    polygonAreaSigned l.reverse = -polygonAreaSigned l := by
  by_cases h : l.length < 3
  · simp [polygonAreaSigned, h]
  · rw [polygonAreaSigned, polygonAreaSigned, if_neg (by simpa using h),
      if_neg (by simpa using h), shoelaceSum_reverse]
    ring

/-- JS `orientLoop(points, clockwise)`: empty result for fewer than 3
points; otherwise reverses exactly when the current orientation (negative
signed area = clockwise) disagrees with the requested one.  The source's
`(clockwise && !isClockwise) || (!clockwise && isClockwise)` is the
exclusive-or written here as inequality of the two conditions. -/
def orientLoop (points : List Pt) (clockwise : Bool) : List Pt :=
  if points.length < 3 then []
  else if (clockwise = true) ≠ (polygonAreaSigned points < 0) then points.reverse
  else points

lemma orientLoop_length_of_ge (points : List Pt) (c : Bool)
    (h : 3 ≤ points.length) : (orientLoop points c).length = points.length := by
  rw [orientLoop, if_neg (by omega)]
  by_cases hc : (c = true) ≠ (polygonAreaSigned points < 0)
  · simp [hc]
  · simp [hc]

lemma orientLoop_ccw_area_pos (points : List Pt)
    (h3 : 3 ≤ points.length) (hA : polygonAreaSigned points ≠ 0) :
    0 < polygonAreaSigned (orientLoop points false) := by
  rw [orientLoop, if_neg (by omega)]
  by_cases hneg : polygonAreaSigned points < 0
  · rw [if_pos (by simp [hneg]), polygonAreaSigned_reverse]
    linarith
  · rw [if_neg (by simp [hneg])]
    cases lt_or_gt_of_ne hA with
    | inl h => exact absurd h hneg
    | inr h => exact h

lemma orientLoop_cw_area_neg (points : List Pt)
    (h3 : 3 ≤ points.length) (hA : polygonAreaSigned points ≠ 0) :
    polygonAreaSigned (orientLoop points true) < 0 := by
  rw [orientLoop, if_neg (by omega)]
  by_cases hneg : polygonAreaSigned points < 0
  · rw [if_neg (by simp [hneg])]
    exact hneg
  · rw [if_pos (by simp [hneg]), polygonAreaSigned_reverse]
    cases lt_or_gt_of_ne hA with
    | inl h => exact absurd h hneg
    | inr h => linarith

/-! ## Distances, bounding boxes, quantization -/

/-- Squared Euclidean distance.  JS compares `a.distanceTo(b)` with
non-negative thresholds; comparing squares is exact and equivalent. -/
def distSq (a b : Pt) : ℚ := (a.1 - b.1) ^ 2 + (a.2 - b.2) ^ 2

/-- `dist a b ≤ t` for a non-negative threshold `t`, via squares. -/
def distLe (a b : Pt) (t : ℚ) : Prop := distSq a b ≤ t * t

instance (a b : Pt) (t : ℚ) : Decidable (distLe a b t) := by
  unfold distLe; infer_instance

/-- Axis-aligned bounding box. -/
structure BBox where
  minX : ℚ
  minY : ℚ
  maxX : ℚ
  maxY : ℚ
deriving DecidableEq, Repr

/-- Fold of min/max over a point list seeded at its first element (the JS
pattern `minX = pts[0].x; for (p of pts) ...`). -/
def bboxOfPoints (pts : List Pt) : BBox :=
  let h := pts.headD (0, 0)
  pts.foldl
    (fun b p => ⟨min b.minX p.1, min b.minY p.2, max b.maxX p.1, max b.maxY p.2⟩)
    ⟨h.1, h.2, h.1, h.2⟩

/-- JS `bboxContainsPoint(bbox, point, eps)`. -/
def bboxContainsPoint (b : BBox) (p : Pt) (eps : ℚ) : Bool :=
  decide (b.minX - eps ≤ p.1) && decide (p.1 ≤ b.maxX + eps) &&
  decide (b.minY - eps ≤ p.2) && decide (p.2 ≤ b.maxY + eps)

/-- JS `Math.round`: rounds half toward positive infinity, also for
negative arguments (`Math.round(-2.5) = -2`). -/
def jround (q : ℚ) : ℤ := ⌊q + 1 / 2⌋

/-- JS `pointKey(point, eps)`: the quantized-coordinate key, modelled as an
integer pair instead of the string `"i_j"`. -/
def pointKeyQ (p : Pt) (eps : ℚ) : ℤ × ℤ := (jround (p.1 / eps), jround (p.2 / eps))

/-! ## List and ordered-map utilities -/

/-- Insert into a `≤`-sorted list (stable insertion sort step). -/
def insertLe {α : Type} (le : α → α → Bool) (x : α) : List α → List α
  | [] => [x]
  | y :: t => if le x y then x :: y :: t else y :: insertLe le x t

/-- Insertion sort; models `Array.prototype.sort` with a total comparator
(the sorted value sequence is what the source consumes). -/
def sortLe {α : Type} (le : α → α → Bool) (l : List α) : List α :=
  l.foldr (insertLe le) []

/-- Insert-or-update for an association list, preserving first-insertion
order exactly like a JS `Map`: existing keys update in place, new keys
append at the end. -/
def upsertBy {κ ν : Type} [DecidableEq κ] (m : List (κ × ν)) (k : κ)
    (f : Option ν → ν) : List (κ × ν) :=
  match m with
  | [] => [(k, f none)]
  | (k', v) :: t => if k' = k then (k', f (some v)) :: t else (k', v) :: upsertBy t k f

/-- The values of an association list, in map iteration order. -/
def mapValues {κ ν : Type} (m : List (κ × ν)) : List ν := m.map Prod.snd

/-- Adjacent pairs `(l[i], l[i+1])`. -/
def consPairs {α : Type} : List α → List (α × α)
  | a :: b :: t => (a, b) :: consPairs (b :: t)
  | _ => []

/-- Rotate right by one: pairs each element with its cyclic predecessor. -/
def rotR {α : Type} : List α → List α
  | [] => []
  | a :: t => (a :: t).getLastD a :: (a :: t).dropLast

/-! ## Point-in-polygon and interior samples (JS `pointOnSegment`,
`pointInPolygonStrict`, `polygonCentroid`, `pickSampleInside`) -/

/-- JS `pointOnSegment(point, a, b, eps = 1e-8)`. -/
def pointOnSegment (point a b : Pt) : Bool :=
  let abx := b.1 - a.1
  let aby := b.2 - a.2
  let apx := point.1 - a.1
  let apy := point.2 - a.2
  if |abx * apy - aby * apx| > 1e-8 then false
  else if apx * abx + apy * aby < -(1e-8) then false
  else if (apx * abx + apy * aby) - (abx * abx + aby * aby) > 1e-8 then false
  else true

/-- JS `pointInPolygonStrict(point, closedPts)`: on-edge returns `false`;
otherwise an even-odd ray cast over the open vertex list.  The JS guard
`((pj.y - pi.y) || Number.EPSILON)` only matters when `pi.y = pj.y`, in
which case the first conjunct is already false and the division is never
consulted; `ℚ` division by zero likewise yields a harmless value. -/
def pointInPolygonStrict (point : Pt) (closedPts : List Pt) : Bool :=
  if closedPts.length < 4 then false
  else if (consPairs closedPts).any (fun e => pointOnSegment point e.1 e.2) then false
  else
    let openPts := closedPts.dropLast
    ((openPts.zip (rotR openPts)).foldl
      (fun inside pr =>
        let pi := pr.1
        let pj := pr.2
        if ((pi.2 > point.2) ≠ (pj.2 > point.2)) ∧
            (point.1 < (pj.1 - pi.1) * (point.2 - pi.2) / (pj.2 - pi.2) + pi.1)
        then !inside else inside)
      false)

/-- JS `polygonCentroid(openPts)`: shoelace centroid, `none` when the
accumulated area is at most `1e-9` in magnitude. -/
def polygonCentroid (openPts : List Pt) : Option Pt :=
  if openPts.length < 3 then none
  else
    let pairs := openPts.zip (openPts.rotate 1)
    let areaAcc := (pairs.map fun pr => cross pr.1 pr.2).sum
    let cxAcc := (pairs.map fun pr => (pr.1.1 + pr.2.1) * cross pr.1 pr.2).sum
    let cyAcc := (pairs.map fun pr => (pr.1.2 + pr.2.2) * cross pr.1 pr.2).sum
    let area := areaAcc / 2
    if |area| ≤ 1e-9 then none
    else some (cxAcc / (6 * area), cyAcc / (6 * area))

/-- JS `pickSampleInside(openPts, closedPts)`: first candidate (centroid,
vertex mean, first-edge midpoint, first vertex) strictly inside, else the
last candidate, else the origin. -/
def pickSampleInside (openPts closedPts : List Pt) : Pt :=
  let n := openPts.length
  let centroidPart := match polygonCentroid openPts with
    | some c => [c]
    | none => []
  let meanPart := if n ≥ 1 then
      [(((openPts.map Prod.fst).sum) / (n : ℚ), ((openPts.map Prod.snd).sum) / (n : ℚ))]
    else []
  let midPart := match openPts with
    | p0 :: p1 :: _ => [((p0.1 + p1.1) / 2, (p0.2 + p1.2) / 2)]
    | _ => []
  let firstPart := match openPts with
    | p0 :: _ => [p0]
    | _ => []
  let candidates := centroidPart ++ meanPart ++ midPart ++ firstPart
  match candidates.find? (fun c => pointInPolygonStrict c closedPts) with
  | some c => c
  | none => candidates.getLastD (0, 0)

/-! ## Closed point lists (JS `buildClosedPointList`) -/

/-- Drop consecutive points within distance `tol` of the previous kept
point (the JS accumulation pattern shared by several cleaners). -/
def dedupConsecutive (tol : ℚ) (pts : List Pt) : List Pt :=
  pts.foldl
    (fun acc p => match acc.getLast? with
      | none => [p]
      | some prev => if ¬ distLe prev p tol then acc ++ [p] else acc)
    []

/-- JS `buildClosedPointList(pts)`: dedup at `1e-9`, require at least 3
distinct points, then append the first point unless already closed. -/
def buildClosedPointList (pts : List Pt) : Option (List Pt) :=
  let cleaned := dedupConsecutive 1e-9 pts
  if cleaned.length < 3 then none
  else
    let first := cleaned.headD (0, 0)
    let last := cleaned.getLastD (0, 0)
    if ¬ distLe first last 1e-9 then some (cleaned ++ [first]) else some cleaned

/-! ## Convex hull (JS `convexHullFromPoints`, Andrew monotone chain) -/

/-- Orientation of `o → a → b` (the JS `cross` closure in the hull). -/
def crossO (o a b : Pt) : ℚ := (a.1 - o.1) * (b.2 - o.2) - (a.2 - o.2) * (b.1 - o.1)

/-- Pop chain entries while the turn through the new point is non-left.
The accumulator is kept reversed (head = most recently pushed). -/
def popChain : List Pt → Pt → List Pt
  | b :: o :: rest, p => if crossO o b p ≤ 0 then popChain (o :: rest) p else b :: o :: rest
  | acc, _ => acc

/-- One monotone-chain half over the given traversal order, reversed. -/
def chainRev (pts : List Pt) : List Pt :=
  pts.foldl (fun acc p => p :: popChain acc p) []

/-- JS `convexHullFromPoints(points)`: sort by x then y, build lower and
upper chains, drop each chain's final point, concatenate; empty unless at
least 3 hull vertices remain. -/
def convexHullFromPoints (points : List Pt) : List Pt :=
  let pts := sortLe (fun a b => decide (a.1 < b.1 ∨ (a.1 = b.1 ∧ a.2 ≤ b.2))) points
  if pts.length < 3 then []
  else
    let lower := ((chainRev pts).drop 1).reverse
    let upper := ((chainRev pts.reverse).drop 1).reverse
    let hull := lower ++ upper
    if hull.length ≥ 3 then hull else []

/-! ## Loop extraction from segments (JS `extractClosedLoopsFromSegments`) -/

/-- JS `EPS` (app.js line 76). -/
def EPS : ℚ := 1e-6

/-- An undirected multigraph edge with quantized endpoint keys. -/
structure Edge where
  a : Pt
  b : Pt
  aKey : ℤ × ℤ
  bKey : ℤ × ℤ
deriving DecidableEq, Repr

def edge0 : Edge := ⟨(0, 0), (0, 0), (0, 0), (0, 0)⟩

/-- Edge construction: drop zero-length segments (`≤ 1e-9`) and segments
whose two endpoints quantize to the same key. -/
def buildEdges (segments : List (Pt × Pt)) (eps : ℚ) : List Edge :=
  segments.foldl
    (fun edges s =>
      if distLe s.1 s.2 1e-9 then edges
      else
        let aKey := pointKeyQ s.1 eps
        let bKey := pointKeyQ s.2 eps
        if aKey = bKey then edges else edges ++ [⟨s.1, s.2, aKey, bKey⟩])
    []

/-- Adjacency lists: for each key, the incident edge indices in insertion
order (ascending, since each edge registers its endpoints once). -/
def adjacencyOf (edges : List Edge) (k : ℤ × ℤ) : List ℕ :=
  (List.range edges.length).filter
    (fun i => (edges.getD i edge0).aKey = k ∨ (edges.getD i edge0).bKey = k)

/-- The traversal of one loop: repeatedly pick an unused incident edge,
preferring one that does not immediately backtrack, until the walk returns
to the start key or dead-ends; the JS guard bounds iterations by
`edges.length + 2`.  Returns the used flags, the path, and closure. -/
def walkStep (edges : List Edge) : ℕ → List Bool → (ℤ × ℤ) → (ℤ × ℤ) → (ℤ × ℤ) →
    List Pt → List Bool × List Pt × Bool
  | 0, used, _, _, _, path => (used, path, false)
  | fuel + 1, used, startKey, prevKey, currentKey, path =>
    let candidates := (adjacencyOf edges currentKey).filter (fun idx => !(used.getD idx true))
    match candidates with
    | [] => (used, path, false)
    | c0 :: rest =>
      let nextEdgeIndex :=
        if rest.isEmpty then c0
        else match candidates.find? (fun idx =>
            let e := edges.getD idx edge0
            (if e.aKey = currentKey then e.bKey else e.aKey) ≠ prevKey) with
          | some p => p
          | none => c0
      let e := edges.getD nextEdgeIndex edge0
      let used' := used.set nextEdgeIndex true
      let nextKey := if e.aKey = currentKey then e.bKey else e.aKey
      let nextPoint := if e.aKey = currentKey then e.b else e.a
      let path' := path ++ [nextPoint]
      if nextKey = startKey then (used', path', true)
      else walkStep edges fuel used' startKey currentKey nextKey path'

/-- JS `extractClosedLoopsFromSegments(segments, eps)`. -/
def extractClosedLoopsFromSegments (segments : List (Pt × Pt)) (eps : ℚ) :
    List (List Pt) :=
  let edges := buildEdges segments eps
  ((List.range edges.length).foldl
    (fun (st : List Bool × List (List Pt)) i =>
      let (used, loops) := st
      if used.getD i true then st
      else
        let used1 := used.set i true
        let e := edges.getD i edge0
        let (used2, path, closed) :=
          walkStep edges (edges.length + 2) used1 e.aKey e.aKey e.bKey [e.a, e.b]
        if closed ∧ path.length ≥ 3 then (used2, loops ++ [path]) else (used2, loops))
    (List.replicate edges.length false, [])).2

/-- JS `appendSegmentsFromPointList(pts, out)`: consecutive pairs with
zero-length (`≤ 1e-9`) segments skipped. -/
def appendSegmentsFromPointList (pts : List Pt) : List (Pt × Pt) :=
  if pts.length < 2 then []
  else (consPairs pts).filter (fun pr => ¬ distLe pr.1 pr.2 1e-9)

/-! ## Open-contour stitcher (JS `stitchClosedLoopsFromOpenContours`) -/

/-- JS `compactLoopPoints(points, tol)`: consecutive dedup, then drop the
final point when it returns within `tol` of the first. -/
def compactLoopPoints (tol : ℚ) (pts : List Pt) : List Pt :=
  let out := dedupConsecutive tol pts
  if out.length > 1 ∧ distLe (out.headD (0, 0)) (out.getLastD (0, 0)) tol
  then out.dropLast else out

/-- The best attachment option for the current chain: scans the unused
pool entries and their four end-to-end / end-reversed options, keeping the
strictly smallest (squared) gap not exceeding `tol`.  Result:
`(index, prepend, reverse)`. -/
def bestAttach (tol : ℚ) (pool : List (List Pt × Bool)) (chain : List Pt) :
    Option (ℕ × Bool × Bool) :=
  let start := chain.headD (0, 0)
  let stop := chain.getLastD (0, 0)
  ((List.range pool.length).foldl
    (fun (best : Option (ℕ × Bool × Bool × ℚ)) i =>
      let item := pool.getD i ([], true)
      if item.2 then best
      else
        let pts := item.1
        if pts.length < 2 then best
        else
          let a := pts.headD (0, 0)
          let b := pts.getLastD (0, 0)
          let options : List (ℚ × Bool × Bool) :=
            [(distSq stop a, false, false), (distSq stop b, false, true),
             (distSq start b, true, false), (distSq start a, true, true)]
          options.foldl
            (fun best opt =>
              if opt.1 > tol * tol then best
              else match best with
                | none => some (i, opt.2.1, opt.2.2, opt.1)
                | some prev => if opt.1 < prev.2.2.2 then some (i, opt.2.1, opt.2.2, opt.1)
                    else best)
            best)
    none).map (fun b => (b.1, b.2.1, b.2.2.1))

/-- One growth round of the JS `while (true)` chain loop; fuel bounds the
number of attachments (each consumes one pool entry). -/
def growChain (tol : ℚ) : ℕ → List (List Pt × Bool) → List Pt →
    List (List Pt × Bool) × List Pt
  | 0, pool, chain => (pool, chain)
  | fuel + 1, pool, chain =>
    if chain.length ≥ 3 ∧ distLe (chain.headD (0, 0)) (chain.getLastD (0, 0)) tol then
      (pool, chain)
    else match bestAttach tol pool chain with
      | none => (pool, chain)
      | some (i, prepend, rev) =>
        let pts0 := (pool.getD i ([], true)).1
        let pool' := pool.set i (pts0, true)
        let pts := if rev then pts0.reverse else pts0
        let chain' :=
          if prepend then
            let add := if pts ≠ [] ∧ distLe (pts.getLastD (0, 0)) (chain.headD (0, 0)) tol
              then pts.dropLast else pts
            add ++ chain
          else
            let add := if pts ≠ [] ∧ distLe (chain.getLastD (0, 0)) (pts.headD (0, 0)) tol
              then pts.drop 1 else pts
            chain ++ add
        growChain tol fuel pool' chain'

/-- JS `stitchClosedLoopsFromOpenContours(openContours, tol)`.  Note the
source pushes any grown chain with at least 3 compacted points, closed or
not. -/
def stitchClosedLoopsFromOpenContours (openContours : List (List Pt)) (tol : ℚ) :
    List (List Pt) :=
  let dedupTol := max 1e-5 (min 0.08 (tol * 0.05))
  let pool0 := openContours.foldl
    (fun pool c =>
      let pts := compactLoopPoints dedupTol c
      if pts.length ≥ 2 then pool ++ [(pts, false)] else pool)
    []
  ((List.range pool0.length).foldl
    (fun (st : List (List Pt × Bool) × List (List Pt)) baseIdx =>
      let (pool, loops) := st
      let item := pool.getD baseIdx ([], true)
      if item.2 then st
      else
        let pool1 := pool.set baseIdx (item.1, true)
        let (pool2, chain) := growChain tol (pool1.length + 1) pool1 item.1
        let loop := compactLoopPoints dedupTol chain
        if loop.length ≥ 3 then (pool2, loops ++ [loop]) else (pool2, loops))
    (pool0, [])).2

/-! ## Compound-loop splitter (JS `splitCompoundLoopCandidates`) -/

/-- A subloop candidate produced inside the splitter. -/
structure SubCand where
  loopOpen : List Pt
  area : ℚ
  cx : ℚ
  cy : ℚ
  minDim : ℚ
deriving DecidableEq, Repr

/-- Non-adjacent repeated-vertex detection at quantization `1e-4` (the
`seen` map records each key's first index). -/
def hasRepeatKeyAt (openPts : List Pt) : Bool :=
  (((openPts.enum).foldl
    (fun (st : List ((ℤ × ℤ) × ℕ) × Bool) pi =>
      let (seen, flag) := st
      let key := pointKeyQ pi.2 1e-4
      match seen.find? (fun e => e.1 = key) with
      | some prev => (seen, flag || decide (pi.1 - prev.2 > 1))
      | none => (seen ++ [(key, pi.1)], flag))
    ([], false)).2)

/-- The candidate list the splitter builds from re-extracted subloops. -/
def splitCandidates (subLoops : List (List Pt)) : List SubCand :=
  subLoops.foldl
    (fun acc loopPts =>
      match buildClosedPointList loopPts with
      | none => acc
      | some closedPts =>
        let loopOpen := closedPts.dropLast
        if loopOpen.length < 3 then acc
        else
          let loopArea := |polygonAreaSigned loopOpen|
          if ¬ (loopArea > 1e-8) then acc
          else
            let b := bboxOfPoints loopOpen
            let w := max EPS (b.maxX - b.minX)
            let h := max EPS (b.maxY - b.minY)
            acc ++ [⟨loopOpen, loopArea, (b.minX + b.maxX) / 2, (b.minY + b.maxY) / 2,
              min w h⟩])
    []

/-- Insert-or-update keyed by `key c`, keeping the incumbent unless
`better c incumbent` (the shared JS `Map` dedup pattern). -/
def upsertKeep {κ ν : Type} [DecidableEq κ] (key : ν → κ) (better : ν → ν → Bool)
    (m : List (κ × ν)) (c : ν) : List (κ × ν) :=
  upsertBy m (key c)
    (fun prev => match prev with
      | none => c
      | some p => if better c p then c else p)

/-- Center-quantized dedup keeping the largest-area candidate per cell. -/
def dedupByCenter (quant : ℚ) (candidates : List SubCand) : List ((ℤ × ℤ) × SubCand) :=
  candidates.foldl
    (upsertKeep (fun c => (jround (c.cx / quant), jround (c.cy / quant)))
      (fun c p => decide (c.area > p.area)))
    []

/-- JS `splitCompoundLoopCandidates(openPts)` (the closure inside
`buildShapesFromClosedLoops`). -/
def splitCompoundLoopCandidates (openPts : List Pt) : List (List Pt) :=
  if openPts.length < 4 then [openPts]
  else
    let bbox := bboxOfPoints openPts
    let hasRepeatKey := hasRepeatKeyAt openPts
    let areaAbs := |polygonAreaSigned openPts|
    let bboxArea := max EPS ((bbox.maxX - bbox.minX) * (bbox.maxY - bbox.minY))
    let suspicious := hasRepeatKey ||
      decide (areaAbs / bboxArea > 1.08) || decide (areaAbs / bboxArea < 0.42)
    if ¬ suspicious then [openPts]
    else
      let segs := appendSegmentsFromPointList (openPts ++ [openPts.headD (0, 0)])
      let subLoops0 := extractClosedLoopsFromSegments segs 1e-4
      let subLoops := if subLoops0.length < 2
        then extractClosedLoopsFromSegments segs 5e-4 else subLoops0
      if subLoops.length < 2 then [openPts]
      else
        let candidates := splitCandidates subLoops
        if candidates.isEmpty then [openPts]
        else
          let minDimMedian :=
            (sortLe (fun a b => decide (a ≤ b)) (candidates.map SubCand.minDim)).getD
              (candidates.length / 2) 0
          let quant := max 1e-4 (min 0.5 (minDimMedian * 0.15))
          let normalized :=
            (sortLe (fun a b => decide (b.area ≤ a.area))
              (mapValues (dedupByCenter quant candidates))).map SubCand.loopOpen
          if normalized.isEmpty then [openPts] else normalized

/-! ## Loop records (JS `makeLoopRecord`) -/

/-- The geometric payload of a loop record (`parent`/`depth` are tracked
separately as hierarchy state; the JS `-1` sentinel becomes `Option ℕ`). -/
structure GeoRec where
  openPts : List Pt
  closedPts : List Pt
  areaAbs : ℚ
  bbox : BBox
  sample : Pt
deriving DecidableEq, Repr

def geo0 : GeoRec := ⟨[], [], 0, ⟨0, 0, 0, 0⟩, (0, 0)⟩

/-- JS `makeLoopRecord(openPts, bboxHint)`. -/
def makeLoopRecord (openPts : List Pt) (bboxHint : Option BBox) : Option GeoRec :=
  if openPts.length < 3 then none
  else if ¬ (|polygonAreaSigned openPts| > 1e-8) then none
  else match buildClosedPointList openPts with
    | none => none
    | some closedPts =>
      if closedPts.length < 4 then none
      else some ⟨openPts, closedPts, |polygonAreaSigned openPts|,
        (match bboxHint with | some b => b | none => bboxOfPoints openPts),
        pickSampleInside openPts closedPts⟩

/-! ## The shape-construction pipeline (JS `buildShapesFromClosedLoops`) -/

/-- An emitted shape: `THREE.Shape` outer ring plus `THREE.Path` holes. -/
structure ShapeOut where
  outer : List Pt
  holes : List (List Pt)
deriving DecidableEq, Repr

def shape0 : ShapeOut := ⟨[], []⟩

/-- Source bounding box of all (finite) input points, with its clamped
area (`Math.max(1e-8, w*h)`); present only when at least 3 points exist. -/
structure SrcInfo where
  minX : ℚ
  minY : ℚ
  maxX : ℚ
  maxY : ℚ
  area : ℚ
deriving DecidableEq, Repr

def srcInfoOf (sourcePts : List Pt) : Option SrcInfo :=
  if sourcePts.length ≥ 3 then
    let b := bboxOfPoints sourcePts
    some ⟨b.minX, b.minY, b.maxX, b.maxY, max 1e-8 ((b.maxX - b.minX) * (b.maxY - b.minY))⟩
  else none

def srcBBox (s : SrcInfo) : BBox := ⟨s.minX, s.minY, s.maxX, s.maxY⟩

/-- Initial loop records: close each input loop, split compound loops,
and keep the valid records (JS lines 2416-2426). -/
def mkInitialGeos (closedLoops : List (List Pt)) : List GeoRec :=
  closedLoops.foldl
    (fun loops loop =>
      match buildClosedPointList loop with
      | none => loops
      | some closedPts =>
        if closedPts.length < 4 then loops
        else
          (splitCompoundLoopCandidates closedPts.dropLast).foldl
            (fun loops cand =>
              match makeLoopRecord cand none with
              | none => loops
              | some r => loops ++ [r])
            loops)
    []

/-- The `forceHullFromTinyClosed` replacement (JS lines 2452-2474): keep
only tiny loops and append the convex hull of the source points. -/
def applyForceHull (geos : List GeoRec) (src : Option SrcInfo) (sourcePts : List Pt)
    (force : Bool) : List GeoRec :=
  match src with
  | none => geos
  | some s =>
    if force ∧ sourcePts.length ≥ 3 then
      let tinyLoops := geos.filter (fun x => decide (x.areaAbs ≤ s.area * 0.0035))
      let withHull := match makeLoopRecord (convexHullFromPoints sourcePts)
          (some (srcBBox s)) with
        | some r => tinyLoops ++ [r]
        | none => tinyLoops
      if withHull.length ≥ 1 then withHull else geos
    else geos

/-- First index of the strictly largest area (JS fold with initial index 0). -/
def argmaxArea (geos : List GeoRec) : ℕ :=
  (List.range geos.length).foldl
    (fun best i =>
      if (geos.getD i geo0).areaAbs > (geos.getD best geo0).areaAbs then i else best)
    0

/-- How many of the other loops' interior samples loop `j` contains
(bbox pre-check at eps `1e-4` plus the strict point-in-polygon test). -/
def countOthersInside (geos : List GeoRec) (j : ℕ) : ℕ :=
  ((List.range geos.length).filter
    (fun i => i ≠ j ∧
      bboxContainsPoint (geos.getD j geo0).bbox (geos.getD i geo0).sample 1e-4 = true ∧
      pointInPolygonStrict (geos.getD i geo0).sample (geos.getD j geo0).closedPts = true)).length

/-- The largest area among the loops other than the first argmax. -/
def secondLargestArea (geos : List GeoRec) : ℚ :=
  (List.range geos.length).foldl
    (fun acc i => if i = argmaxArea geos then acc else max acc (geos.getD i geo0).areaAbs) 0

/-- The strong-container-contour flag of the hull gate (JS lines
2480-2506): only the largest-area loop is examined. -/
def strongContainerContour (geos : List GeoRec) (bboxArea : ℚ) : Bool :=
  if geos.length < 2 then false
  else
    decide (countOthersInside geos (argmaxArea geos) ≥ max 1 (min 3 (geos.length - 1))) &&
      decide ((geos.getD (argmaxArea geos) geo0).areaAbs ≥
        max (secondLargestArea geos * 6) (bboxArea * 0.002))

/-- The convex-hull fallback gate (JS lines 2476-2524). -/
def applyHullFallback (geos : List GeoRec) (src : Option SrcInfo) (sourcePts : List Pt)
    (allowHull : Bool) : List GeoRec :=
  match src with
  | none => geos
  | some s =>
    if allowHull ∧ sourcePts.length ≥ 3 then
      let bboxArea := s.area
      -- JS `Math.max(...areas)`; the pipeline reaches this with a nonempty
      -- loop list, where the fold below coincides.
      let maxLoopArea := (geos.map GeoRec.areaAbs).foldl max 0
      let hasLikelyOuter := geos.any (fun x => decide (x.areaAbs > bboxArea * 0.05))
      let hasStrong := strongContainerContour geos bboxArea
      let shouldAddHull := (¬ hasLikelyOuter = true) ∧
        (¬ (maxLoopArea > bboxArea * 0.01) ∨ ¬ hasStrong = true)
      if shouldAddHull then
        let hull := convexHullFromPoints sourcePts
        if hull.length ≥ 3 then
          match makeLoopRecord hull (some (srcBBox s)) with
          | some r => geos ++ [r]
          | none => geos
        else geos
      else geos
    else geos

/-- One step of the strict-`>` argmax fold (JS `outerIdx = -1`,
`outerArea = 0` initialization). -/
def findMaxStep (geos : List GeoRec) (acc : Option (ℕ × ℚ)) (i : ℕ) : Option (ℕ × ℚ) :=
  match acc with
  | none => if (geos.getD i geo0).areaAbs > 0 then some (i, (geos.getD i geo0).areaAbs)
      else none
  | some pr => if (geos.getD i geo0).areaAbs > pr.2
      then some (i, (geos.getD i geo0).areaAbs) else acc

/-- First index of strictly positive maximal area, with the max (JS fold
starting from `outerIdx = -1`, `outerArea = 0` with strict `>`). -/
def findMaxIdxPos (geos : List GeoRec) : Option (ℕ × ℚ) :=
  (List.range geos.length).foldl (findMaxStep geos) none

/-- The fast path's children: loops other than the outer, of area at most
`0.02·sourceBBoxArea`, whose interior sample lies strictly inside the
outer loop. -/
def denseCandidatesOf (geos : List GeoRec) (s : SrcInfo) (outerIdx : ℕ) : List GeoRec :=
  let outer := geos.getD outerIdx geo0
  ((List.range geos.length).filter
    (fun i => i ≠ outerIdx ∧
      (geos.getD i geo0).areaAbs > 1e-8 ∧
      ¬ ((geos.getD i geo0).areaAbs > s.area * 0.02) ∧
      bboxContainsPoint outer.bbox (geos.getD i geo0).sample 1e-4 = true ∧
      pointInPolygonStrict (geos.getD i geo0).sample outer.closedPts = true)).map
    (fun i => geos.getD i geo0)

/-- The candidates' finite bbox minimum dimensions, ascending. -/
def denseMinDims (candidates : List GeoRec) : List ℚ :=
  sortLe (fun a b => decide (a ≤ b))
    ((candidates.map (fun l =>
      min (max EPS (l.bbox.maxX - l.bbox.minX))
          (max EPS (l.bbox.maxY - l.bbox.minY)))).filter
      (fun d => decide (d > EPS)))

/-- `Math.max(1e-4, Math.min(0.25, medianDim * 0.03))`. -/
def denseQuantOf (minDims : List ℚ) : ℚ :=
  max 1e-4 (min 0.25 (minDims.getD (minDims.length / 2) 0 * 0.03))

/-- Center-quantized dedup of the fast-path children, keeping the largest
area per cell. -/
def denseDedupHoles (candidates : List GeoRec) (quant : ℚ) : List GeoRec :=
  mapValues (candidates.foldl
    (upsertKeep
      (fun loop => (jround ((loop.bbox.minX + loop.bbox.maxX) / 2 / quant),
        jround ((loop.bbox.minY + loop.bbox.maxY) / 2 / quant)))
      (fun loop p => decide (loop.areaAbs > p.areaAbs)))
    [])

/-- JS `tryBuildDensePerforatedPanelShape()` (lines 2526-2586). -/
def tryBuildDensePerforatedPanelShape (geos : List GeoRec) (src : Option SrcInfo) :
    Option (List ShapeOut) :=
  match src with
  | none => none
  | some s =>
    if geos.length < 220 then none
    else match findMaxIdxPos geos with
      | none => none
      | some pr =>
        if pr.2 < s.area * 0.30 then none
        else
          let candidates := denseCandidatesOf geos s pr.1
          if candidates.length < 120 then none
          else
            let minDims := denseMinDims candidates
            if minDims.isEmpty then none
            else
              let dedupHoles := denseDedupHoles candidates (denseQuantOf minDims)
              if dedupHoles.length < 90 then none
              else some [⟨orientLoop (geos.getD pr.1 geo0).openPts false,
                (dedupHoles.map (fun h => orientLoop h.openPts true)).filter
                  (fun l => l.length ≥ 3)⟩]

/-! ## Hierarchy (JS `computeLoopHierarchy` and friends) -/

/-- JS `computeLoopHierarchy` parent assignment: smallest-area loop whose
area exceeds the loop's by `1e-8`, whose bbox contains the loop's sample
(default bbox eps `1e-6`), and which strictly contains the sample. -/
def parentStep (geos : List GeoRec) (i : ℕ) (best : Option ℕ) (j : ℕ) : Option ℕ :=
  if i = j then best
  else
    let candidate := geos.getD j geo0
    if ¬ (candidate.areaAbs > (geos.getD i geo0).areaAbs + 1e-8) then best
    else if ¬ (bboxContainsPoint candidate.bbox (geos.getD i geo0).sample 1e-6 = true)
      then best
    else if ¬ (pointInPolygonStrict (geos.getD i geo0).sample candidate.closedPts = true)
      then best
    else match best with
      | none => some j
      | some b => if candidate.areaAbs < (geos.getD b geo0).areaAbs
          then some j else best

def computeParents (geos : List GeoRec) : List (Option ℕ) :=
  (List.range geos.length).map
    (fun i => (List.range geos.length).foldl (parentStep geos i) none)

/-- Fuelled depth resolution: the JS memoized recursion `resolveDepth`
terminates because parents always have strictly larger area; with fuel at
least the list length the fuelled version computes the same value. -/
def depthOf (parents : List (Option ℕ)) : ℕ → ℕ → ℕ
  | 0, _ => 0
  | fuel + 1, i =>
    match parents.getD i none with
    | none => 0
    | some p => depthOf parents fuel p + 1

def depthsOf (parents : List (Option ℕ)) : List ℕ :=
  (List.range parents.length).map (depthOf parents parents.length)

/-- The ascending child list of a parent (JS builds `childrenByParent` by
an ascending index scan). -/
def childrenOf (parents : List (Option ℕ)) (p : ℕ) : List ℕ :=
  (List.range parents.length).filter (fun i => parents.getD i none = some p)

/-- Fuelled descendant count (JS memoized `countDescendants` over the
children map of the pass-start parent assignment). -/
def descCount (parents : List (Option ℕ)) : ℕ → ℕ → ℕ
  | 0, _ => 0
  | fuel + 1, idx =>
    let ch := childrenOf parents idx
    ch.length + (ch.map (descCount parents fuel)).sum

/-- Fragmented-sheet detection and replacement (JS lines 2638-2695). -/
def applyFragmentedSheet (geos : List GeoRec) (parents : List (Option ℕ))
    (src : Option SrcInfo) (sourcePts : List Pt) :
    List GeoRec × List (Option ℕ) :=
  match src with
  | none => (geos, parents)
  | some s =>
    if sourcePts.length < 3 then (geos, parents)
    else
      let rootIdx := (List.range geos.length).filter (fun i => parents.getD i none = none)
      if rootIdx.length < 3 then (geos, parents)
      else
        let sourceW := max EPS (s.maxX - s.minX)
        let sourceH := max EPS (s.maxY - s.minY)
        let borderTol := max 4 (min sourceW sourceH * 0.06)
        let borderTouchCount := (rootIdx.filter
          (fun idx =>
            let b := (geos.getD idx geo0).bbox
            decide (min (min (b.minX - s.minX) (s.maxX - b.maxX))
              (min (b.minY - s.minY) (s.maxY - b.maxY)) ≤ borderTol))).length
        let rootAreas := sortLe (fun a b => decide (b ≤ a))
          (rootIdx.map (fun idx => (geos.getD idx geo0).areaAbs))
        let tinyLoops := geos.filter (fun x => decide (x.areaAbs ≤ s.area * 0.002))
        if borderTouchCount ≥ 3 ∧ tinyLoops.length ≥ 6 ∧ rootAreas.length ≥ 3 ∧
            rootAreas.headD 0 < s.area * 0.45 then
          let withHull : List GeoRec := match makeLoopRecord (convexHullFromPoints sourcePts)
              (some (srcBBox s)) with
            | some r => tinyLoops ++ [r]
            | none => tinyLoops
          if withHull.length ≥ 2 then (withHull, computeParents withHull)
          else (geos, parents)
        else (geos, parents)

/-! ## Pseudo-hole normalization (JS `shouldSkipAsPseudoHole`,
`normalizePseudoHoleContainers`) -/

/-- Count of tiny siblings (sibling area over parent area below 0.02). -/
def tinySibCount (geos : List GeoRec) (staleParents : List (Option ℕ))
    (parentIdx childIdx : ℕ) (parentArea : ℚ) : ℕ :=
  (((childrenOf staleParents parentIdx).filter (fun idx => idx ≠ childIdx)).filter
    (fun idx => decide (max 0 (geos.getD idx geo0).areaAbs / parentArea < 0.02))).length

/-- JS `shouldSkipAsPseudoHole(parentLoop, parentIdx, childLoop, childIdx)`
(lines 2708-2745), evaluated against the pass-start children map. -/
def shouldSkipAsPseudoHole (geos : List GeoRec) (staleParents : List (Option ℕ))
    (parentIdx childIdx : ℕ) : Bool :=
  let parentLoop := geos.getD parentIdx geo0
  let childLoop := geos.getD childIdx geo0
  let parentArea := max EPS parentLoop.areaAbs
  let childArea := max 0 childLoop.areaAbs
  let areaQuot := childArea / parentArea
  if ¬ (areaQuot > 0.70) then false
  else
    let tinySiblingCount := tinySibCount geos staleParents parentIdx childIdx parentArea
    if areaQuot > 0.68 ∧ tinySiblingCount ≥ 6 then true
    else
      let parentW := max EPS (parentLoop.bbox.maxX - parentLoop.bbox.minX)
      let parentH := max EPS (parentLoop.bbox.maxY - parentLoop.bbox.minY)
      let insetLeft := childLoop.bbox.minX - parentLoop.bbox.minX
      let insetRight := parentLoop.bbox.maxX - childLoop.bbox.maxX
      let insetBottom := childLoop.bbox.minY - parentLoop.bbox.minY
      let insetTop := parentLoop.bbox.maxY - childLoop.bbox.maxY
      let minInset := min (min insetLeft insetRight) (min insetBottom insetTop)
      if ¬ (minInset ≥ -(1e-4)) then false
      else if ¬ (minInset ≤ max 4 (min parentW parentH * 0.06)) then false
      else if descCount staleParents staleParents.length childIdx ≥ 6 then true
      else if tinySiblingCount ≥ 8 then true
      else if areaQuot > 0.82 ∧ tinySiblingCount ≥ 4 then true
      else false

/-- One pass of JS `normalizePseudoHoleContainers` (lines 2747-2776):
iterate even-depth parents and their odd-depth children against the
pass-start (`stale`) parent assignment, marking pseudo-holes and
re-parenting their children.  State: current parents, skip list, changed
flag. -/
def pseudoPass (geos : List GeoRec) (parents : List (Option ℕ)) (skip : List ℕ) :
    List (Option ℕ) × List ℕ × Bool :=
  let staleParents := parents
  let depths := depthsOf staleParents
  (List.range geos.length).foldl
    (fun st parentIdx =>
      if (depths.getD parentIdx 0) % 2 ≠ 0 then st
      else
        (childrenOf staleParents parentIdx).foldl
          (fun st childIdx =>
            let (ps, sk, changed) := st
            if sk.contains childIdx then st
            else if (depths.getD childIdx 0) % 2 ≠ 1 then st
            else if ¬ (shouldSkipAsPseudoHole geos staleParents parentIdx childIdx = true)
              then st
            else
              let sk' := sk ++ [childIdx]
              let grandChildren := childrenOf staleParents childIdx
              if grandChildren.isEmpty then (ps, sk', changed)
              else
                ((grandChildren.foldl (fun ps g => ps.set g (some parentIdx)) ps).set
                  childIdx none, sk', true))
          st)
    (parents, skip, false)

/-- The bounded pass loop (JS `for (guard = 0; guard < 8; ...)`). -/
def runPseudoPasses (geos : List GeoRec) : ℕ → List (Option ℕ) → List ℕ →
    List (Option ℕ) × List ℕ
  | 0, parents, skip => (parents, skip)
  | fuel + 1, parents, skip =>
    let (p, s, changed) := pseudoPass geos parents skip
    if changed then runPseudoPasses geos fuel p s else (p, s)

/-! ## Assembly and artifact filter (JS lines 2782-2948) -/

/-- JS `shouldSkipNestedIsland(idx)`. -/
def shouldSkipNestedIsland (geos : List GeoRec) (parents : List (Option ℕ))
    (depths : List ℕ) (src : Option SrcInfo) (idx : ℕ) : Bool :=
  let loop := geos.getD idx geo0
  let d := depths.getD idx 0
  if d < 2 ∨ d % 2 ≠ 0 then false
  else match src with
    | none => false
    | some s =>
      if ¬ (s.area > EPS) then false
      else match parents.getD idx none with
        | none => false
        | some parentIdx =>
          let parent := geos.getD parentIdx geo0
          if (depths.getD parentIdx 0) % 2 ≠ 1 then false
          else
            let loopArea := max 0 loop.areaAbs
            let parentArea := max EPS parent.areaAbs
            let areaQuot := loopArea / parentArea
            if ¬ (areaQuot > 0.20 ∧ areaQuot < 0.98) then false
            else if ¬ (loopArea ≤ s.area * 0.01 ∧ parentArea ≤ s.area * 0.02) then false
            else
              let parentC : Pt := ((parent.bbox.maxX + parent.bbox.minX) / 2,
                (parent.bbox.maxY + parent.bbox.minY) / 2)
              let childC : Pt := ((loop.bbox.maxX + loop.bbox.minX) / 2,
                (loop.bbox.maxY + loop.bbox.minY) / 2)
              let parentW := max EPS (parent.bbox.maxX - parent.bbox.minX)
              let parentH := max EPS (parent.bbox.maxY - parent.bbox.minY)
              let centerTol := max 0.6 (min parentW parentH * 0.22)
              if ¬ distLe childC parentC centerTol then false
              else true

/-- Metadata the assembler records per emitted shape. -/
structure MetaRec where
  loopIdx : ℕ
  area : ℚ
  holeCount : ℕ
  sample : Pt
  bbox : BBox
deriving DecidableEq, Repr

def meta0 : MetaRec := ⟨0, 0, 0, (0, 0), ⟨0, 0, 0, 0⟩⟩

/-- The terminal shape assembly (JS lines 2814-2842). -/
def assembleShapes (geos : List GeoRec) (parents : List (Option ℕ)) (skip : List ℕ)
    (src : Option SrcInfo) : List ShapeOut × List MetaRec :=
  let depths := depthsOf parents
  (List.range geos.length).foldl
    (fun acc i =>
      let (shapes, metas) := acc
      let loop := geos.getD i geo0
      if skip.contains i then acc
      else if (depths.getD i 0) % 2 ≠ 0 then acc
      else if shouldSkipNestedIsland geos parents depths src i = true then acc
      else
        let outerPts := orientLoop loop.openPts false
        if outerPts.length < 3 then acc
        else
          let holes := (childrenOf parents i).foldl
            (fun hs childIdx =>
              if skip.contains childIdx then hs
              else
                let child := geos.getD childIdx geo0
                if (depths.getD childIdx 0) % 2 ≠ 1 then hs
                else
                  let holePts := orientLoop child.openPts true
                  if holePts.length < 3 then hs else hs ++ [holePts])
            []
          (shapes ++ [⟨outerPts, holes⟩],
            metas ++ [⟨i, loop.areaAbs, holes.length, loop.sample, loop.bbox⟩]))
    ([], [])

def bboxArea2D (b : BBox) : ℚ := max 0 (b.maxX - b.minX) * max 0 (b.maxY - b.minY)

def bboxIntersectionArea2D (a b : BBox) : ℚ :=
  let minX := max a.minX b.minX
  let minY := max a.minY b.minY
  let maxX := min a.maxX b.maxX
  let maxY := min a.maxY b.maxY
  if ¬ (maxX > minX) ∨ ¬ (maxY > minY) then 0 else (maxX - minX) * (maxY - minY)

/-- First index of the strictly largest meta area (JS `dominantMetaIdx`
fold from `-1` with strict `>` against an initial area of 0). -/
def findDominantStep (metas : List MetaRec) (acc : Option (ℕ × ℚ)) (i : ℕ) :
    Option (ℕ × ℚ) :=
  match acc with
  | none => if (metas.getD i meta0).area > 0 then some (i, (metas.getD i meta0).area)
      else none
  | some pr => if (metas.getD i meta0).area > pr.2
      then some (i, (metas.getD i meta0).area) else acc

def findDominantIdx (metas : List MetaRec) : Option ℕ :=
  ((List.range metas.length).foldl (findDominantStep metas) none).map Prod.fst

/-- The artifact-overlay filter (JS lines 2861-2945). -/
def artifactFilter (geos : List GeoRec) (shapes : List ShapeOut) (metas : List MetaRec)
    (src : Option SrcInfo) : List ShapeOut :=
  if shapes.length ≤ 1 then shapes
  else match src with
    | none => shapes
    | some s =>
      match findDominantIdx metas with
      | none => shapes
      | some dIdx =>
        let dominant := metas.getD dIdx meta0
        let dominantLoop := geos.getD dominant.loopIdx geo0
        if ¬ (dominant.holeCount ≥ 80 ∧ dominant.area ≥ s.area * 0.35) then shapes
        else
          let dominantDensity := (dominant.holeCount : ℚ) / max EPS dominant.area
          let keepFlags := (List.range shapes.length).map
            (fun i =>
              if i = dIdx then true
              else
                let meta := metas.getD i meta0
                let areaQuot := meta.area / max EPS dominant.area
                let densityQuot := ((meta.holeCount : ℚ) / max EPS meta.area) /
                  max EPS dominantDensity
                let selfBBoxArea := bboxArea2D meta.bbox
                let overlapQuot := if selfBBoxArea > EPS
                  then bboxIntersectionArea2D meta.bbox dominant.bbox / selfBBoxArea
                  else 0
                ¬ (pointInPolygonStrict meta.sample dominantLoop.closedPts = true ∧
                  areaQuot ≥ 0.04 ∧ areaQuot ≤ 0.98 ∧
                  (meta.holeCount ≤ 2 ∨ densityQuot < 0.35) ∧
                  (areaQuot ≥ 0.16 ∨ overlapQuot ≥ 0.45 ∨ meta.holeCount ≤ 1)))
          let filteredShapes := ((List.range shapes.length).filter
            (fun i => keepFlags.getD i true = true)).map (fun i => shapes.getD i shape0)
          let filteredMetas := ((List.range shapes.length).filter
            (fun i => keepFlags.getD i true = true)).map (fun i => metas.getD i meta0)
          let secondary := filteredMetas.filter (fun m => m.loopIdx ≠ dominant.loopIdx)
          let allSecondaryInside := secondary.all
            (fun m => pointInPolygonStrict m.sample dominantLoop.closedPts)
          let hasLargeLowDensityOverlay := secondary.any
            (fun m =>
              decide (m.area / max EPS dominant.area ≥ 0.10) &&
              decide (((m.holeCount : ℚ) / max EPS m.area) / max EPS dominantDensity < 0.45))
          if allSecondaryInside ∧ hasLargeLowDensityOverlay ∧ dominant.holeCount ≥ 160 then
            [shapes.getD dIdx shape0]
          else if filteredShapes.length = 1 ∧ dominant.holeCount ≥ 80 then filteredShapes
          else if filteredShapes.length > 0 then filteredShapes
          else [shapes.getD dIdx shape0]

/-! ## The pipeline -/

structure BuildOpts where
  allowHullFallback : Bool
  forceHullFromTinyClosed : Bool
deriving DecidableEq, Repr

/-- The control-flow skeleton of `buildShapesFromClosedLoops`: empty early
return, dense fast path, or the general path's final hierarchy state. -/
inductive PipeResult where
  | empty : PipeResult
  | dense : List ShapeOut → PipeResult
  | general : List GeoRec → List (Option ℕ) → List ℕ → Option SrcInfo → PipeResult
deriving DecidableEq

/-- Stages 1-6 of the pipeline; `allPointsRaw` entries are `none` for JS
points with a non-finite coordinate (dropped by the source's
`Number.isFinite` filter). -/
def pipelineCore (closedLoops : List (List Pt)) (allPointsRaw : List (Option Pt))
    (opts : BuildOpts) : PipeResult :=
  let geos0 := mkInitialGeos closedLoops
  if geos0.isEmpty then .empty
  else
    let sourcePts := allPointsRaw.reduceOption
    let src := srcInfoOf sourcePts
    let geos1 := applyForceHull geos0 src sourcePts opts.forceHullFromTinyClosed
    let geos2 := applyHullFallback geos1 src sourcePts opts.allowHullFallback
    match tryBuildDensePerforatedPanelShape geos2 src with
    | some shapes => .dense shapes
    | none =>
      let fr := applyFragmentedSheet geos2 (computeParents geos2) src sourcePts
      let pp := runPseudoPasses fr.1 8 fr.2 []
      .general fr.1 pp.1 pp.2 src

/-- JS `buildShapesFromClosedLoops(closedLoops, allPoints, options)`. -/
def buildShapesFromClosedLoops (closedLoops : List (List Pt))
    (allPointsRaw : List (Option Pt)) (opts : BuildOpts) : List ShapeOut :=
  match pipelineCore closedLoops allPointsRaw opts with
  | .empty => []
  | .dense shapes => shapes
  | .general geos parents skip src =>
    let am := assembleShapes geos parents skip src
    artifactFilter geos am.1 am.2 src

/-- The loop records of the general-path final state. -/
def finalGeosOf : PipeResult → List GeoRec
  | .general g _ _ _ => g
  | _ => []

/-- The parent assignment of the general-path final state. -/
def finalParentsOf : PipeResult → List (Option ℕ)
  | .general _ p _ _ => p
  | _ => []

/-- The pseudo-hole skip list of the general-path final state. -/
def finalSkipOf : PipeResult → List ℕ
  | .general _ _ s _ => s
  | _ => []

/-! ## Contour cleaner (JS `cleanImportedContoursCnc`)

Polyline lengths are sums of Euclidean norms and are not rational, so the
cleaner takes a segment-length function `L : Pt → Pt → ℚ` as a parameter.
Concrete statements instantiate `L` with values that agree with the
Euclidean length on the (axis-aligned) segments involved; score
comparisons (`totalLen·√area`) are performed on squares, which is
equivalent for non-negative lengths. -/

/-- A raw contour: possibly non-finite points (modelled as `none`) plus
the closed flag. -/
abbrev RawContour := List (Option Pt) × Bool

/-- JS finite-filter plus consecutive dedup at `1e-5` (the first loop of
`cleanImportedContoursCnc`). -/
def cleanContourPoints (rawPts : List (Option Pt)) : List Pt :=
  rawPts.foldl
    (fun pts p? => match p? with
      | none => pts
      | some p => match pts.getLast? with
        | none => [p]
        | some prev => if ¬ distLe prev p 1e-5 then pts ++ [p] else pts)
    []

/-- JS `contourPolylineLengthArray(points, closed)` with length function `L`. -/
def contourPolylineLength (L : Pt → Pt → ℚ) (pts : List Pt) (closed : Bool) : ℚ :=
  if pts.length < 2 then 0
  else ((consPairs pts).map (fun pr => L pr.1 pr.2)).sum +
    (if closed ∧ pts.length > 2 then L (pts.getLastD (0, 0)) (pts.headD (0, 0)) else 0)

/-- The per-contour filter of `cleanImportedContoursCnc` (lines
1356-1374): dedup, drop the duplicated closing point, require 3 (closed)
or 2 (open) points, and drop contours of polyline length at most `0.10`. -/
def cleanOneContour (L : Pt → Pt → ℚ) (c : RawContour) : Option (List Pt × Bool) :=
  let pts0 := cleanContourPoints c.1
  let closed := c.2
  let pts := if closed ∧ pts0.length > 2 ∧
      distLe (pts0.headD (0, 0)) (pts0.getLastD (0, 0)) 1e-5
    then pts0.dropLast else pts0
  if pts.length < (if closed then 3 else 2) then none
  else if contourPolylineLength L pts closed ≤ 0.10 then none
  else some (pts, closed)

/-- JS `contourBoundsArray`. -/
def contourBounds (pts : List Pt) : Option BBox :=
  match pts with
  | [] => none
  | _ :: _ => some (bboxOfPoints pts)

/-- JS `bboxesNearArray(a, b, gap)`. -/
def bboxesNear (a b : BBox) (gap : ℚ) : Bool :=
  ¬ (decide (a.maxX + gap < b.minX) || decide (b.maxX + gap < a.minX) ||
     decide (a.maxY + gap < b.minY) || decide (b.maxY + gap < a.minY))

/-- Overall bounds of a contour list via the JS `1e30` sentinels. -/
def overallBounds (contours : List (List Pt × Bool)) : BBox :=
  contours.foldl
    (fun acc c => match contourBounds c.1 with
      | none => acc
      | some b => ⟨min acc.minX b.minX, min acc.minY b.minY,
          max acc.maxX b.maxX, max acc.maxY b.maxY⟩)
    ⟨1e30, 1e30, -1e30, -1e30⟩

/-- Best attachment option inside `stitchContoursForContinuity` (same
four options, gap bound `joinTol`, strict minimum): `(idx, attachEnd,
reverse)`. -/
def continuityBest (joinTol : ℚ) (pool : List (List Pt)) (chain : List Pt) :
    Option (ℕ × Bool × Bool) :=
  let cStart := chain.headD (0, 0)
  let cEnd := chain.getLastD (0, 0)
  ((List.range pool.length).foldl
    (fun (best : Option (ℕ × Bool × Bool × ℚ)) i =>
      let pts := pool.getD i []
      if pts.length < 2 then best
      else
        let pStart := pts.headD (0, 0)
        let pEnd := pts.getLastD (0, 0)
        let options : List (ℚ × Bool × Bool) :=
          [(distSq cEnd pStart, true, false), (distSq cEnd pEnd, true, true),
           (distSq cStart pEnd, false, false), (distSq cStart pStart, false, true)]
        options.foldl
          (fun best opt =>
            if opt.1 > joinTol * joinTol then best
            else match best with
              | none => some (i, opt.2.1, opt.2.2, opt.1)
              | some prev => if opt.1 < prev.2.2.2 then some (i, opt.2.1, opt.2.2, opt.1)
                  else best)
          best)
    none).map (fun b => (b.1, b.2.1, b.2.2.1))

/-- The `grew` loop of `stitchContoursForContinuity`: the picked pool
entry is spliced out and attached. -/
def continuityGrow (joinTol : ℚ) : ℕ → List (List Pt) → List Pt →
    List (List Pt) × List Pt
  | 0, pool, chain => (pool, chain)
  | fuel + 1, pool, chain =>
    match continuityBest joinTol pool chain with
    | none => (pool, chain)
    | some (i, attachEnd, rev) =>
      let picked := pool.getD i []
      let pool' := pool.eraseIdx i
      let seg0 := if rev then picked.reverse else picked
      let chain' :=
        if attachEnd then
          let seg := if seg0 ≠ [] ∧ distLe (chain.getLastD (0, 0)) (seg0.headD (0, 0)) joinTol
            then seg0.drop 1 else seg0
          chain ++ seg
        else
          let seg := if seg0 ≠ [] ∧ distLe (seg0.getLastD (0, 0)) (chain.headD (0, 0)) joinTol
            then seg0.dropLast else seg0
          seg ++ chain
      continuityGrow joinTol fuel pool' chain'

/-- The `while (openPool.length > 0)` loop: chains start from the pool's
last entry (`openPool.pop()`). -/
def continuityConsume (joinTol closeTol : ℚ) : ℕ → List (List Pt) →
    List (List Pt × Bool) → List (List Pt × Bool)
  | 0, _, out => out
  | fuel + 1, pool, out =>
    match pool.getLast? with
    | none => out
    | some chain0 =>
      let pool1 := pool.dropLast
      let (pool2, chain) := continuityGrow joinTol (pool1.length + 1) pool1 chain0
      let closed := chain.length ≥ 3 ∧
        distLe (chain.headD (0, 0)) (chain.getLastD (0, 0)) closeTol
      let chain' := if closed then chain.dropLast else chain
      let out' := if chain'.length ≥ (if closed then 3 else 2)
        then out ++ [(chain', decide closed)] else out
      continuityConsume joinTol closeTol fuel pool2 out'

/-- JS `stitchContoursForContinuity(inputContours, joinTol, closeTol)`. -/
def stitchContoursForContinuity (inputContours : List (List Pt × Bool))
    (joinTol closeTol : ℚ) : List (List Pt × Bool) :=
  let dedupTol := max 1e-5 (min (joinTol * 0.35) 0.08)
  let (outClosed, openPool) := inputContours.foldl
    (fun (acc : List (List Pt × Bool) × List (List Pt)) c =>
      let (out, pool) := acc
      let pts0 := compactLoopPoints dedupTol c.1
      if pts0.length < 2 then acc
      else
        let closed := c.2 ∨ (pts0.length ≥ 3 ∧
          distLe (pts0.headD (0, 0)) (pts0.getLastD (0, 0)) closeTol)
        if closed then
          let pts := if pts0.length > 2 ∧
              distLe (pts0.headD (0, 0)) (pts0.getLastD (0, 0)) closeTol
            then pts0.dropLast else pts0
          if pts.length ≥ 3 then (out ++ [(pts, true)], pool) else acc
        else (out, pool ++ [pts0]))
    ([], [])
  outClosed ++ continuityConsume joinTol closeTol (openPool.length + 1) openPool []

/-- A contour cluster: member indices, bbox area (clamped at `EPS`), and
total polyline length. -/
structure ClusterGroup where
  idxs : List ℕ
  area : ℚ
  lenTotal : ℚ
deriving DecidableEq, Repr

/-- The stack-based cluster flood fill (JS lines 1478-1511). -/
def clusterBFS (bounds : List BBox) (lens : List ℚ) (joinGap : ℚ) :
    ℕ → List Bool → List ℕ → List ℕ → ℚ → BBox → List Bool × List ℕ × ℚ × BBox
  | 0, used, _stack, idxs, accLen, accB => (used, idxs, accLen, accB)
  | fuel + 1, used, stack, idxs, accLen, accB =>
    match stack.getLast? with
    | none => (used, idxs, accLen, accB)
    | some idx =>
      let stack1 := stack.dropLast
      let idxs1 := idxs ++ [idx]
      let b := bounds.getD idx ⟨0, 0, 0, 0⟩
      let accLen1 := accLen + lens.getD idx 0
      let accB1 : BBox := ⟨min accB.minX b.minX, min accB.minY b.minY,
        max accB.maxX b.maxX, max accB.maxY b.maxY⟩
      let (used2, stack2) := (List.range bounds.length).foldl
        (fun (st : List Bool × List ℕ) j =>
          if st.1.getD j true then st
          else if ¬ (bboxesNear b (bounds.getD j ⟨0, 0, 0, 0⟩) joinGap = true) then st
          else (st.1.set j true, st.2 ++ [j]))
        (used, stack1)
      clusterBFS bounds lens joinGap fuel used2 stack2 idxs1 accLen1 accB1

/-- Build all clusters (JS lines 1478-1511). -/
def clusterGroups (bounds : List BBox) (lens : List ℚ) (joinGap : ℚ) :
    List ClusterGroup :=
  ((List.range bounds.length).foldl
    (fun (st : List Bool × List ClusterGroup) i =>
      let (used, groups) := st
      if used.getD i true then st
      else
        let (used', idxs, accLen, accB) := clusterBFS bounds lens joinGap
          (bounds.length + 1) (used.set i true) [i] [] 0 ⟨1e30, 1e30, -1e30, -1e30⟩
        let area := max EPS ((accB.maxX - accB.minX) * (accB.maxY - accB.minY))
        (used', groups ++ [⟨idxs, area, accLen⟩]))
    (List.replicate bounds.length false, [])).2

/-- `score_a > k · score_b` for `score = lenTotal · √area`, compared on
squares (equivalent for non-negative lengths). -/
def scoreGtFactor (a b : ClusterGroup) (k : ℚ) : Prop :=
  a.lenTotal ^ 2 * a.area > k ^ 2 * (b.lenTotal ^ 2 * b.area)

instance (a b : ClusterGroup) (k : ℚ) : Decidable (scoreGtFactor a b k) := by
  unfold scoreGtFactor; infer_instance

/-- JS `cleanImportedContoursCnc(contours)` with length function `L`. -/
def cleanImportedContoursCnc (L : Pt → Pt → ℚ) (contours : List RawContour) :
    List (List Pt × Bool) :=
  let cleaned := contours.filterMap (cleanOneContour L)
  if cleaned.length < 2 then cleaned
  else
    let b := overallBounds cleaned
    if ¬ (b.maxX > b.minX + EPS ∧ b.maxY > b.minY + EPS) then cleaned
    else
      let minSide := max 1 (min (b.maxX - b.minX) (b.maxY - b.minY))
      let stitchJoin := max 0.03 (min 0.45 (minSide * 0.0018))
      let stitchClose := max (stitchJoin * 1.35) 0.05
      let stitched := stitchContoursForContinuity cleaned stitchJoin stitchClose
      let merged := if ¬ stitched.isEmpty then stitched else cleaned
      if merged.length < 2 then merged
      else
        let mb := overallBounds merged
        if ¬ (mb.maxX > mb.minX + EPS ∧ mb.maxY > mb.minY + EPS) then merged
        else
          let mMinSide := max 1 (min (mb.maxX - mb.minX) (mb.maxY - mb.minY))
          let joinGap := max 0.5 (min 20 (mMinSide * 0.05))
          let bounds := merged.map (fun c => (contourBounds c.1).getD ⟨0, 0, 0, 0⟩)
          let lens := merged.map (fun c => contourPolylineLength L c.1 c.2)
          let groups := clusterGroups bounds lens joinGap
          if groups.length < 2 then merged
          else
            let sorted := sortLe
              (fun a b => decide (b.lenTotal ^ 2 * b.area ≤ a.lenTotal ^ 2 * a.area))
              groups
            let main := sorted.getD 0 ⟨[], 0, 0⟩
            let alt := sorted.getD 1 ⟨[], 0, 0⟩
            let areaAll := max EPS ((mb.maxX - mb.minX) * (mb.maxY - mb.minY))
            if (scoreGtFactor main alt 2.4 ∧ main.area > alt.area * 1.8) ∨
                (areaAll > main.area * 1.45 ∧ scoreGtFactor main alt 1.6) then
              main.idxs.map (fun idx => merged.getD idx ([], false))
            else merged

/-! ## Coordinate normalizers (JS `normalizeContoursCnc`,
`normalizeContoursSimple`) -/

/-- A normalized document: contours shifted to the origin plus extents. -/
structure NormDoc where
  contours : List (List Pt × Bool)
  width : ℚ
  height : ℚ
deriving DecidableEq, Repr

def normalizeShift (contours : List (List Pt × Bool)) : Option NormDoc :=
  let all := contours.foldl (fun acc c => acc ++ c.1) []
  match all with
  | [] => none
  | _ :: _ =>
    let b := bboxOfPoints all
    some ⟨contours.map (fun c => (c.1.map (fun p => (p.1 - b.minX, p.2 - b.minY)), c.2)),
      b.maxX - b.minX, b.maxY - b.minY⟩

/-- JS `normalizeContoursCnc(contours)`. -/
def normalizeContoursCnc (L : Pt → Pt → ℚ) (contours : List RawContour) :
    Option NormDoc :=
  normalizeShift (cleanImportedContoursCnc L contours)

/-- JS `normalizeContoursSimple(contours)`: finite filter, at least two
points, closed only when also at least three points; no cleaning. -/
def normalizeContoursSimple (contours : List RawContour) : Option NormDoc :=
  let valid := contours.filterMap
    (fun c =>
      let pts := c.1.reduceOption
      if pts.length < 2 then none else some (pts, c.2 && decide (pts.length ≥ 3)))
  if valid.isEmpty then none
  else normalizeShift valid

/-- JS `shouldReparseInRawLineArcMode(parsed)`. -/
def shouldReparseInRawLineArcMode (parsed : NormDoc) : Bool :=
  if parsed.contours.length < 3 then false
  else
    let sourceArea := max EPS (parsed.width * parsed.height)
    if ¬ (sourceArea > EPS) then false
    else
      let openCount := (parsed.contours.filter
        (fun c => c.1.length ≥ 2 ∧ c.2 = false)).length
      let maxClosedArea := (parsed.contours.foldl
        (fun acc c =>
          if c.1.length ≥ 2 ∧ c.2 = true ∧ c.1.length ≥ 3
          then max acc |polygonAreaSigned c.1| else acc)
        0)
      decide (openCount ≥ 2) && decide (maxClosedArea < sourceArea * 0.02)

/-! ## Import loop collection (JS `importWithCncContours`, lines
2976-3059) -/

/-- JS `shouldForceHullFromTinyClosedLoops`. -/
def shouldForceHullFromTinyClosedLoops (closedLoops : List (List Pt))
    (sourceArea : ℚ) (openEntityCount stitchedLoopCount : ℕ) : Bool :=
  if ¬ (sourceArea > 1e-8) then false
  else if openEntityCount < 2 then false
  else if stitchedLoopCount < 2 then false
  else if closedLoops.length < 4 then false
  else
    let areas := (closedLoops.filter (fun l => l.length ≥ 3)).map
      (fun l => |polygonAreaSigned l|)
    let validAreas := areas.filter (fun a => decide (a > 1e-8))
    if validAreas.length < 4 then false
    else if (validAreas.filter (fun a => decide (a ≥ sourceArea * 0.02))).length > 0
      then false
    else decide ((validAreas.filter
      (fun a => decide (a ≤ sourceArea * 0.0035))).length ≥ min 6 validAreas.length)

/-- JS `collectTinyClosedLoops`. -/
def collectTinyClosedLoops (closedLoops : List (List Pt)) (sourceArea : ℚ) :
    List (List Pt) :=
  if ¬ (sourceArea > 1e-8) then []
  else (closedLoops.filter (fun l => l.length ≥ 3)).filter
    (fun l => decide (|polygonAreaSigned l| > 1e-8) &&
      decide (¬ (|polygonAreaSigned l| > sourceArea * 0.0035)))

/-- JS `Number(tol.toFixed(3))`: decimal rounding to 3 places. -/
def round3 (q : ℚ) : ℚ := (jround (q * 1000) : ℚ) / 1000

/-- Keep first occurrences (the JS `Set` insertion behaviour). -/
def dedupFirst (l : List ℚ) : List ℚ :=
  l.foldl (fun acc x => if acc.contains x then acc else acc ++ [x]) []

/-- JS `findDominantOuterLoopFromOpenContours(openContours, sourceArea,
minSideHint)`.  The `Math.sqrt(sourceArea)` fallback for a non-positive
hint is irrational; it is passed in as `sqrtFallback` (the embedded call
site always supplies a positive hint, so it is never consulted there). -/
def findDominantOuterLoopFromOpenContours (openContours : List (List Pt))
    (sourceArea minSideHint sqrtFallback : ℚ) : Option (List Pt) :=
  if openContours.length < 2 then none
  else if ¬ (sourceArea > EPS) then none
  else
    let safeMinSide := if minSideHint > 0 then minSideHint else sqrtFallback
    let baseTols : List ℚ := [0.6, 1, 2, 3, 4, 5, 6, 8, 10, 12, 16, 20]
    let extraTols := ([safeMinSide * 0.004, safeMinSide * 0.006, safeMinSide * 0.008,
      safeMinSide * 0.012, safeMinSide * 0.016, safeMinSide * 0.02,
      safeMinSide * 0.03].filter (fun t => decide (t > 0))).map
      (fun t => min 20 (max 0.6 (round3 t)))
    let tolerances := sortLe (fun a b => decide (a ≤ b))
      (dedupFirst (baseTols ++ extraTols))
    let result := tolerances.foldl
      (fun (st : Option (List Pt) × ℚ × Bool) tol =>
        let (bestLoop, bestArea, stop) := st
        if stop then st
        else
          let found := (stitchClosedLoopsFromOpenContours openContours tol).foldl
            (fun (acc : Option (List Pt) × ℚ) loop =>
              match buildClosedPointList loop with
              | none => acc
              | some closedPts =>
                if closedPts.length < 4 then acc
                else
                  let openPts := closedPts.dropLast
                  let area := |polygonAreaSigned openPts|
                  if ¬ (area > acc.2 + 1e-8) then acc
                  else if area > sourceArea * 1.2 then acc
                  else (some openPts, area))
            (bestLoop, bestArea)
          (found.1, found.2, decide (found.2 ≥ sourceArea * 0.75)))
      (none, 0, false)
    if ¬ (result.2.1 ≥ sourceArea * 0.45) then none else result.1

/-- The loop-collection and shape-construction stage of
`importWithCncContours` (JS lines 2976-3059), starting from the parsed,
normalized contours. -/
def importShapesStage (doc : NormDoc) (rawLineArcMode : Bool) : List ShapeOut :=
  let usable := doc.contours.filter (fun c => c.1.length ≥ 2)
  let allPoints := usable.foldl (fun acc c => acc ++ c.1) []
  let declaredClosed := (usable.filter (fun c => c.2 = true)).foldl
    (fun acc c => match buildClosedPointList c.1 with
      | none => acc
      | some closedPts => if closedPts.length < 4 then acc
          else acc ++ [closedPts.dropLast])
    []
  let openContours := (usable.filter (fun c => c.2 = false)).map Prod.fst
  let segments := openContours.foldl (fun acc pts => acc ++ appendSegmentsFromPointList pts) []
  let segmentLoops0 := extractClosedLoopsFromSegments segments 1e-4
  let segmentLoops1 := if segmentLoops0.isEmpty ∧ ¬ segments.isEmpty
    then extractClosedLoopsFromSegments segments 1e-2 else segmentLoops0
  let segmentLoops2 := if segmentLoops1.isEmpty ∧ ¬ segments.isEmpty
    then extractClosedLoopsFromSegments segments 5e-2 else segmentLoops1
  let minSide := max 1 (min doc.width doc.height)
  let segmentLoops := if segmentLoops2.isEmpty ∧ ¬ openContours.isEmpty
    then stitchClosedLoopsFromOpenContours openContours (max 0.05 (min 0.6 (minSide * 0.005)))
    else segmentLoops2
  let sourceArea := max EPS (doc.width * doc.height)
  let forceHull0 := if rawLineArcMode then false
    else shouldForceHullFromTinyClosedLoops declaredClosed sourceArea
      openContours.length segmentLoops.length
  let stitchedOuter := if forceHull0
    then findDominantOuterLoopFromOpenContours openContours sourceArea minSide 0
    else none
  let (forceHull, closedLoops) := match stitchedOuter with
    | some outer =>
      if outer.length ≥ 3 then
        (false, collectTinyClosedLoops declaredClosed sourceArea ++ [outer])
      else (forceHull0, declaredClosed ++ segmentLoops.foldl
        (fun acc loopPts => match buildClosedPointList loopPts with
          | none => acc
          | some closedPts => if closedPts.length < 4 then acc
              else acc ++ [closedPts.dropLast]) [])
    | none => (forceHull0, declaredClosed ++ segmentLoops.foldl
        (fun acc loopPts => match buildClosedPointList loopPts with
          | none => acc
          | some closedPts => if closedPts.length < 4 then acc
              else acc ++ [closedPts.dropLast]) [])
  buildShapesFromClosedLoops closedLoops (allPoints.map some) ⟨true, forceHull⟩

/-! ## Parser primitive discretization (JS `arcPointsArray` and the
`CIRCLE` branch of `parseDxfAsciiCnc`)

The sample positions use `Math.cos`/`Math.sin` and are not rational; the
claims about circles concern vertex *counts*, which depend only on the
step count.  `Math.PI` is modelled as the exact IEEE-754 double. -/

/-- The IEEE-754 double closest to π (the JS `Math.PI`). -/
def piJS : ℚ := 884279719003555 / 281474976710656

/-- The sweep normalization `while (sweep <= 0) sweep += 360;` of
`arcPointsArray` in closed form. -/
def sweepNorm (d : ℚ) : ℚ := if d > 0 then d else d + 360 * (⌊-d / 360⌋ + 1)

/-- The `arcPointsArray` step count
`Math.max(8, Math.ceil((Math.PI * sweep / 180 * radius) / Math.max(chordTol, 0.05)))`. -/
def arcStepsJS (radius sweep chordTol : ℚ) : ℕ :=
  max 8 (Int.toNat ⌈(piJS * sweep / 180 * radius) / max chordTol 0.05⌉)

/-- Vertex count of the contour the `CIRCLE` branch of `parseDxfAsciiCnc`
builds: `arcPointsArray(center, radius, 0, 360, 0.8)` yields `steps + 1`
samples, and the closing sample is dropped when it lands within `1e-6` of
the first.  That distance test involves the floating-point trigonometric
samples and is abstracted by `popClose`. -/
def circleVertexCountCnc (radius : ℚ) (popClose : Bool) : ℕ :=
  if radius ≤ 0 then 0
  else arcStepsJS radius (sweepNorm (360 - 0)) (4 / 5) + 1 - (if popClose then 1 else 0)

/-- Whether the `CIRCLE` branch emits a (closed) contour: `arcPointsArray`
is empty for a non-positive radius, and the branch requires at least 3
remaining points. -/
def circleEmittedCnc (radius : ℚ) (popClose : Bool) : Bool :=
  decide (radius > 0) && decide (circleVertexCountCnc radius popClose ≥ 3)

/-! ## Generic fold and list lemmas -/

lemma foldl_state_preserve {σ β : Type} (P : σ → Prop) (f : σ → β → σ) :
    ∀ (l : List β), (∀ st b, b ∈ l → P st → P (f st b)) →
      ∀ init, P init → P (l.foldl f init) := by
  intro l
  induction l with
  | nil => intro _ init h; exact h
  | cons b t ih =>
    intro hf init h
    exact ih (fun st x hx => hf st x (List.mem_cons_of_mem _ hx)) (f init b)
      (hf init b (List.mem_cons_self _ _) h)

lemma foldl_mem_invariant {α β : Type} (P : α → Prop) (f : List α → β → List α) :
    ∀ (l : List β), (∀ acc b, b ∈ l → ∀ x, x ∈ f acc b → x ∈ acc ∨ P x) →
      ∀ init x, x ∈ l.foldl f init → x ∈ init ∨ P x := by
  intro l
  induction l with
  | nil => intro _ init x hx; exact Or.inl hx
  | cons b t ih =>
    intro hf init x hx
    rcases ih (fun acc y hy => hf acc y (List.mem_cons_of_mem _ hy)) (f init b) x hx with
      h | h
    · exact hf init b (List.mem_cons_self _ _) x h
    · exact Or.inr h

lemma foldl_pair_fst_mem {α γ β : Type} (P : α → Prop) (f : List α × γ → β → List α × γ) :
    ∀ (l : List β), (∀ st b, b ∈ l → ∀ x, x ∈ (f st b).1 → x ∈ st.1 ∨ P x) →
      ∀ init x, x ∈ (l.foldl f init).1 → x ∈ init.1 ∨ P x := by
  intro l
  induction l with
  | nil => intro _ init x hx; exact Or.inl hx
  | cons b t ih =>
    intro hf init x hx
    rcases ih (fun st y hy => hf st y (List.mem_cons_of_mem _ hy)) (f init b) x hx with
      h | h
    · exact hf init b (List.mem_cons_self _ _) x h
    · exact Or.inr h

lemma getD_mem {α : Type} (l : List α) (i : ℕ) (d : α) (h : i < l.length) :
    l.getD i d ∈ l := by
  rw [List.getD_eq_getElem l d h]
  exact List.getElem_mem h

lemma getD_map_range {α : Type} (f : ℕ → α) (n i : ℕ) (d : α) (h : i < n) :
    ((List.range n).map f).getD i d = f i := by
  rw [List.getD_eq_getElem?_getD, List.getElem?_map, List.getElem?_range h]
  rfl

lemma getD_map_range_ge {α : Type} (f : ℕ → α) (n i : ℕ) (d : α) (h : ¬ i < n) :
    ((List.range n).map f).getD i d = d := by
  rw [List.getD_eq_getElem?_getD, List.getElem?_map]
  have : (List.range n)[i]? = none := by
    rw [List.getElem?_eq_none_iff]
    simpa using Nat.le_of_not_lt h
  rw [this]
  rfl

/-! ## The loop-record validity invariant and the shape property -/

/-- Every record the pipeline manipulates satisfies this: at least 3
vertices, the stored area is the absolute signed area, and it exceeds
`1e-8`. -/
def ValidGeo (g : GeoRec) : Prop :=
  3 ≤ g.openPts.length ∧ g.areaAbs = |polygonAreaSigned g.openPts| ∧ 1e-8 < g.areaAbs

/-- The orientation contract of an emitted shape. -/
def ShapeProp (s : ShapeOut) : Prop :=
  3 ≤ s.outer.length ∧ 0 < polygonAreaSigned s.outer ∧
  ∀ h ∈ s.holes, 3 ≤ h.length ∧ polygonAreaSigned h < 0

lemma ValidGeo.area_ne (g : GeoRec) (hg : ValidGeo g) :
    polygonAreaSigned g.openPts ≠ 0 := by
  intro h
  have h2 := hg.2.2
  rw [hg.2.1, h] at h2
  norm_num at h2

lemma valid_outer (g : GeoRec) (hg : ValidGeo g) :
    3 ≤ (orientLoop g.openPts false).length ∧
    0 < polygonAreaSigned (orientLoop g.openPts false) := by
  constructor
  · rw [orientLoop_length_of_ge _ _ hg.1]; exact hg.1
  · exact orientLoop_ccw_area_pos _ hg.1 (hg.area_ne)

lemma valid_hole (g : GeoRec) (hg : ValidGeo g) :
    3 ≤ (orientLoop g.openPts true).length ∧
    polygonAreaSigned (orientLoop g.openPts true) < 0 := by
  constructor
  · rw [orientLoop_length_of_ge _ _ hg.1]; exact hg.1
  · exact orientLoop_cw_area_neg _ hg.1 (hg.area_ne)

lemma makeLoopRecord_valid (openPts : List Pt) (hint : Option BBox) (g : GeoRec)
    (h : makeLoopRecord openPts hint = some g) : ValidGeo g := by
  unfold makeLoopRecord at h
  split at h
  · exact absurd h (by simp)
  · split at h
    · exact absurd h (by simp)
    · rename_i hlen harea
      split at h
      · exact absurd h (by simp)
      · rename_i closedPts hbuild
        split at h
        · exact absurd h (by simp)
        · rename_i hclen
          have hg := Option.some_inj.mp h
          rw [← hg]
          refine ⟨?_, rfl, ?_⟩
          · show 3 ≤ openPts.length
            omega
          · show (1e-8 : ℚ) < |polygonAreaSigned openPts|
            simpa using harea

/-! ## Ordered-map dedup lemmas -/

lemma upsertBy_values_mem {κ ν : Type} [DecidableEq κ] (m : List (κ × ν)) (k : κ)
    (f : Option ν → ν) (c : ν) (hnone : f none = c)
    (hsome : ∀ v, f (some v) = c ∨ f (some v) = v) :
    ∀ x ∈ mapValues (upsertBy m k f), x ∈ mapValues m ∨ x = c := by
  induction m with
  | nil =>
    intro x hx
    simp [upsertBy, mapValues, hnone] at hx
    exact Or.inr hx
  | cons kv t ih =>
    intro x hx
    obtain ⟨k', v⟩ := kv
    unfold upsertBy at hx
    split at hx
    · simp [mapValues] at hx ⊢
      rcases hx with hx | hx
      · rcases hsome v with h | h
        · right; rw [← h, hx]
        · left; left; rw [← h, hx]
      · left; right; exact hx
    · simp [mapValues] at hx ⊢
      rcases hx with hx | hx
      · left; left; exact hx
      · rcases ih x (by simpa [mapValues] using hx) with h | h
        · left; right; simpa [mapValues] using h
        · right; exact h

lemma upsertKeep_values_mem {κ ν : Type} [DecidableEq κ] (key : ν → κ)
    (better : ν → ν → Bool) (m : List (κ × ν)) (c : ν) :
    ∀ x ∈ mapValues (upsertKeep key better m c), x ∈ mapValues m ∨ x = c := by
  intro x hx
  refine upsertBy_values_mem m (key c) _ c rfl ?_ x hx
  intro v
  by_cases h : better c v
  · left; simp [h]
  · right; simp [h]

lemma foldl_upsertKeep_values_mem {κ ν : Type} [DecidableEq κ] (key : ν → κ)
    (better : ν → ν → Bool) (cands : List ν) :
    ∀ x ∈ mapValues (cands.foldl (upsertKeep key better) []), x ∈ cands := by
  intro x hx
  have h := foldl_state_preserve
    (fun (m : List (κ × ν)) => ∀ y ∈ mapValues m, y ∈ cands)
    (upsertKeep key better) cands ?_ [] (by simp [mapValues])
  · exact h x hx
  · intro st b hb hP y hy
    rcases upsertKeep_values_mem key better st b y hy with h' | h'
    · exact hP y h'
    · rw [h']; exact hb

lemma upsertKeep_sum_le {κ ν : Type} [DecidableEq κ] (key : ν → κ)
    (better : ν → ν → Bool) (w : ν → ℚ) (c : ν) (hc : 0 ≤ w c) :
    ∀ m : List (κ × ν), (∀ y ∈ mapValues m, 0 ≤ w y) →
      ((mapValues (upsertKeep key better m c)).map w).sum ≤
        ((mapValues m).map w).sum + w c := by
  intro m
  induction m with
  | nil => intro _; simp [upsertKeep, upsertBy, mapValues]
  | cons kv t ih =>
    intro hm
    obtain ⟨k', v⟩ := kv
    unfold upsertKeep upsertBy
    split
    · have hv : 0 ≤ w v := hm v (by simp [mapValues])
      by_cases hb : better c v
      · simp [mapValues, hb]
        linarith
      · simp [mapValues, hb]
        linarith
    · simp only [mapValues, List.map_cons, List.sum_cons]
      have ht := ih (fun y hy => hm y (by simp [mapValues] at hy ⊢; right; exact hy))
      unfold upsertKeep at ht
      simp [mapValues] at ht ⊢
      linarith

lemma foldl_upsertKeep_sum_le {κ ν : Type} [DecidableEq κ] (key : ν → κ)
    (better : ν → ν → Bool) (w : ν → ℚ) :
    ∀ (cands : List ν) (m : List (κ × ν)), (∀ c ∈ cands, 0 ≤ w c) →
      (∀ y ∈ mapValues m, 0 ≤ w y) →
      ((mapValues (cands.foldl (upsertKeep key better) m)).map w).sum ≤
        ((mapValues m).map w).sum + (cands.map w).sum := by
  intro cands
  induction cands with
  | nil => intro m _ _; simp
  | cons c t ih =>
    intro m hc hm
    have hstep := upsertKeep_sum_le key better w c (hc c (by simp)) m hm
    have hm' : ∀ y ∈ mapValues (upsertKeep key better m c), 0 ≤ w y := by
      intro y hy
      rcases upsertKeep_values_mem key better m c y hy with h | h
      · exact hm y h
      · rw [h]; exact hc c (by simp)
    have ht := ih (upsertKeep key better m c)
      (fun x hx => hc x (by simp [hx])) hm'
    simp only [List.foldl_cons, List.map_cons, List.sum_cons]
    linarith

/-! ## Insertion-sort permutation -/

lemma insertLe_perm {α : Type} (le : α → α → Bool) (x : α) :
    ∀ l : List α, (insertLe le x l).Perm (x :: l) := by
  intro l
  induction l with
  | nil => simp [insertLe]
  | cons y t ih =>
    unfold insertLe
    split
    · exact List.Perm.refl _
    · exact ((ih.cons y).trans (List.Perm.swap x y t))

lemma sortLe_perm {α : Type} (le : α → α → Bool) :
    ∀ l : List α, (sortLe le l).Perm l := by
  intro l
  induction l with
  | nil => simp [sortLe]
  | cons x t ih =>
    unfold sortLe
    simp only [List.foldr_cons]
    exact (insertLe_perm le x _).trans (ih.cons x)

/-! ## Stage membership lemmas for the pipeline validity invariant -/

lemma mkInitialGeos_valid (cl : List (List Pt)) :
    ∀ g ∈ mkInitialGeos cl, ValidGeo g := by
  intro g hg
  unfold mkInitialGeos at hg
  have h := foldl_mem_invariant ValidGeo _ cl ?_ [] g hg
  · rcases h with h | h
    · simp at h
    · exact h
  · intro acc loop _ x hx
    split at hx
    · exact Or.inl hx
    · split at hx
      · exact Or.inl hx
      · exact foldl_mem_invariant ValidGeo _ _
          (by
            intro acc2 cand _ y hy
            split at hy
            · exact Or.inl hy
            · rename_i r hr
              rcases List.mem_append.mp hy with h' | h'
              · exact Or.inl h'
              · simp at h'
                rw [h']
                exact Or.inr (makeLoopRecord_valid _ _ _ hr))
          acc x hx

lemma applyForceHull_mem (geos : List GeoRec) (src : Option SrcInfo)
    (pts : List Pt) (force : Bool) :
    ∀ g ∈ applyForceHull geos src pts force, g ∈ geos ∨ ValidGeo g := by
  intro g hg
  unfold applyForceHull at hg
  split at hg
  · exact Or.inl hg
  · split at hg
    · split at hg
      · rename_i r hr
        simp only [] at hg
        split at hg
        · rcases List.mem_append.mp hg with h | h
          · exact Or.inl (List.mem_filter.mp h).1
          · simp at h
            rw [h]
            exact Or.inr (makeLoopRecord_valid _ _ _ hr)
        · exact Or.inl hg
      · simp only [] at hg
        split at hg
        · exact Or.inl (List.mem_filter.mp hg).1
        · exact Or.inl hg
    · exact Or.inl hg

lemma applyHullFallback_mem (geos : List GeoRec) (src : Option SrcInfo)
    (pts : List Pt) (allow : Bool) :
    ∀ g ∈ applyHullFallback geos src pts allow, g ∈ geos ∨ ValidGeo g := by
  intro g hg
  unfold applyHullFallback at hg
  split at hg
  · exact Or.inl hg
  · split at hg
    · simp only [] at hg
      split at hg
      · split at hg
        · split at hg
          · rename_i r hr
            rcases List.mem_append.mp hg with h | h
            · exact Or.inl h
            · simp at h
              rw [h]
              exact Or.inr (makeLoopRecord_valid _ _ _ hr)
          · exact Or.inl hg
        · exact Or.inl hg
      · exact Or.inl hg
    · exact Or.inl hg

lemma applyFragmentedSheet_fst_mem (geos : List GeoRec) (parents : List (Option ℕ))
    (src : Option SrcInfo) (pts : List Pt) :
    ∀ g ∈ (applyFragmentedSheet geos parents src pts).1, g ∈ geos ∨ ValidGeo g := by
  intro g hg
  unfold applyFragmentedSheet at hg
  split at hg
  · exact Or.inl hg
  · split at hg
    · exact Or.inl hg
    · try simp only [] at hg
      split at hg
      · exact Or.inl hg
      · split at hg
        · try simp only [] at hg
          split at hg
          · try simp only [] at hg
            split at hg
            · rename_i r hr
              rcases List.mem_append.mp hg with h | h
              · exact Or.inl (List.mem_filter.mp h).1
              · simp at h
                rw [h]
                exact Or.inr (makeLoopRecord_valid _ _ _ hr)
            · exact Or.inl (List.mem_filter.mp hg).1
          · try simp only [] at hg
            exact Or.inl hg
        · exact Or.inl hg

/-! ## Dense fast-path and assembly lemmas -/

lemma findMaxIdxPos_spec (geos : List GeoRec) (pr : ℕ × ℚ)
    (h : findMaxIdxPos geos = some pr) :
    pr.1 < geos.length ∧ pr.2 = (geos.getD pr.1 geo0).areaAbs ∧ 0 < pr.2 := by
  have hinv := foldl_state_preserve
    (fun (acc : Option (ℕ × ℚ)) => acc = none ∨ ∃ q, acc = some q ∧ q.1 < geos.length ∧
      q.2 = (geos.getD q.1 geo0).areaAbs ∧ 0 < q.2)
    (findMaxStep geos) (List.range geos.length) ?_ none (Or.inl rfl)
  · unfold findMaxIdxPos at h
    rw [h] at hinv
    rcases hinv with h' | ⟨q, hq, hlt, harea, hpos⟩
    · exact absurd h' (by simp)
    · injection hq with hq'
      subst hq'
      exact ⟨hlt, harea, hpos⟩
  · intro st b hb hP
    have hblt : b < geos.length := List.mem_range.mp hb
    cases st with
    | none =>
      by_cases hgt : (geos.getD b geo0).areaAbs > 0
      · have hstep : findMaxStep geos none b = some (b, (geos.getD b geo0).areaAbs) := by
          show (if (geos.getD b geo0).areaAbs > 0
            then some (b, (geos.getD b geo0).areaAbs) else none) = _
          rw [if_pos hgt]
        rw [hstep]
        exact Or.inr ⟨_, rfl, hblt, rfl, hgt⟩
      · have hstep : findMaxStep geos none b = none := by
          show (if (geos.getD b geo0).areaAbs > 0
            then some (b, (geos.getD b geo0).areaAbs) else none) = _
          rw [if_neg hgt]
        rw [hstep]
        exact Or.inl rfl
    | some q =>
      by_cases hgt : (geos.getD b geo0).areaAbs > q.2
      · have hstep : findMaxStep geos (some q) b =
            some (b, (geos.getD b geo0).areaAbs) := by
          show (if (geos.getD b geo0).areaAbs > q.2
            then some (b, (geos.getD b geo0).areaAbs) else some q) = _
          rw [if_pos hgt]
        rw [hstep]
        refine Or.inr ⟨_, rfl, hblt, rfl, ?_⟩
        rcases hP with h' | ⟨q', hq', _, harea', hpos'⟩
        · exact absurd h' (by simp)
        · injection hq' with hq''
          subst hq''
          linarith
      · have hstep : findMaxStep geos (some q) b = some q := by
          show (if (geos.getD b geo0).areaAbs > q.2
            then some (b, (geos.getD b geo0).areaAbs) else some q) = _
          rw [if_neg hgt]
        rw [hstep]
        exact hP

lemma denseCandidates_mem (geos : List GeoRec) (s : SrcInfo) (outerIdx : ℕ) :
    ∀ x ∈ denseCandidatesOf geos s outerIdx, x ∈ geos := by
  intro x hx
  unfold denseCandidatesOf at hx
  rcases List.mem_map.mp hx with ⟨i, hi, rfl⟩
  exact getD_mem _ _ _ (List.mem_range.mp (List.mem_filter.mp hi).1)

lemma denseDedupHoles_mem (cands : List GeoRec) (quant : ℚ) :
    ∀ x ∈ denseDedupHoles cands quant, x ∈ cands := by
  intro x hx
  exact foldl_upsertKeep_values_mem _ _ cands x hx

lemma tryDense_shapeProp (geos : List GeoRec) (src : Option SrcInfo)
    (shapes : List ShapeOut) (hv : ∀ g ∈ geos, ValidGeo g)
    (h : tryBuildDensePerforatedPanelShape geos src = some shapes) :
    ∀ s' ∈ shapes, ShapeProp s' := by
  unfold tryBuildDensePerforatedPanelShape at h
  split at h
  · exact absurd h (by simp)
  rename_i sV
  split at h
  · exact absurd h (by simp)
  split at h
  · exact absurd h (by simp)
  rename_i pr hfm
  split at h
  · exact absurd h (by simp)
  try simp only [] at h
  split at h
  · exact absurd h (by simp)
  split at h
  · exact absurd h (by simp)
  split at h
  · exact absurd h (by simp)
  have hshapes := Option.some_inj.mp h
  intro s' hs'
  rw [← hshapes] at hs'
  simp only [List.mem_singleton] at hs'
  rw [hs']
  have houter : ValidGeo (geos.getD pr.1 geo0) := by
    apply hv
    exact getD_mem _ _ _ (findMaxIdxPos_spec geos pr hfm).1
  refine ⟨(valid_outer _ houter).1, (valid_outer _ houter).2, ?_⟩
  intro hl hmem
  rcases List.mem_filter.mp hmem with ⟨hmap, hlen3⟩
  rcases List.mem_map.mp hmap with ⟨hole, hhole, rfl⟩
  have hholeg : hole ∈ geos :=
    denseCandidates_mem geos sV pr.1 hole
      (denseDedupHoles_mem _ _ hole hhole)
  exact ⟨by simpa using hlen3, (valid_hole hole (hv hole hholeg)).2⟩

lemma assembleShapes_shapeProp (geos : List GeoRec) (parents : List (Option ℕ))
    (skip : List ℕ) (src : Option SrcInfo) (hv : ∀ g ∈ geos, ValidGeo g) :
    ∀ s ∈ (assembleShapes geos parents skip src).1, ShapeProp s := by
  intro s hs
  unfold assembleShapes at hs
  have h := foldl_pair_fst_mem ShapeProp _ (List.range geos.length) ?_ ([], []) s hs
  · rcases h with h | h
    · simp at h
    · exact h
  · intro st i hi x hx
    have hlt : i < geos.length := List.mem_range.mp hi
    have hvalid : ValidGeo (geos.getD i geo0) := hv _ (getD_mem _ _ _ hlt)
    try simp only [] at hx
    split at hx
    · exact Or.inl hx
    · split at hx
      · exact Or.inl hx
      · split at hx
        · exact Or.inl hx
        · try simp only [] at hx
          split at hx
          · exact Or.inl hx
          · rcases List.mem_append.mp hx with h' | h'
            · exact Or.inl h'
            · simp only [List.mem_singleton] at h'
              rw [h']
              refine Or.inr ⟨(valid_outer _ hvalid).1, (valid_outer _ hvalid).2, ?_⟩
              intro hl hmem
              have hin := foldl_mem_invariant
                (fun hl => 3 ≤ hl.length ∧ polygonAreaSigned hl < 0) _
                (childrenOf parents i) ?_ [] hl hmem
              · rcases hin with h'' | h''
                · simp at h''
                · exact h''
              · intro hs2 childIdx _ y hy
                split at hy
                · exact Or.inl hy
                · split at hy
                  · exact Or.inl hy
                  · split at hy
                    · exact Or.inl hy
                    · rename_i hge3
                      rcases List.mem_append.mp hy with h'' | h''
                      · exact Or.inl h''
                      · simp only [List.mem_singleton] at h''
                        rw [h'']
                        by_cases hc : childIdx < geos.length
                        · have hcv : ValidGeo (geos.getD childIdx geo0) :=
                            hv _ (getD_mem _ _ _ hc)
                          exact Or.inr ⟨(valid_hole _ hcv).1, (valid_hole _ hcv).2⟩
                        · exfalso
                          rw [List.getD_eq_default _ _ (Nat.le_of_not_lt hc)] at hge3
                          exact hge3 (by simp [geo0, orientLoop])

lemma assembleShapes_len (geos : List GeoRec) (parents : List (Option ℕ))
    (skip : List ℕ) (src : Option SrcInfo) :
    (assembleShapes geos parents skip src).2.length =
      (assembleShapes geos parents skip src).1.length := by
  unfold assembleShapes
  refine foldl_state_preserve
    (fun (st : List ShapeOut × List MetaRec) => st.2.length = st.1.length)
    _ (List.range geos.length) ?_ ([], []) rfl
  intro st b _ hP
  try simp only []
  split
  · exact hP
  · split
    · exact hP
    · split
      · exact hP
      · split
        · exact hP
        · simp [hP]

lemma findDominantIdx_lt (metas : List MetaRec) (i : ℕ)
    (h : findDominantIdx metas = some i) : i < metas.length := by
  unfold findDominantIdx at h
  have hinv := foldl_state_preserve
    (fun (acc : Option (ℕ × ℚ)) => acc = none ∨ ∃ q, acc = some q ∧ q.1 < metas.length)
    (findDominantStep metas) (List.range metas.length) ?_ none (Or.inl rfl)
  · rcases hinv with h' | ⟨q, hq, hlt⟩
    · rw [h'] at h
      simp at h
    · rw [hq] at h
      simp at h
      rw [← h]
      exact hlt
  · intro st b hb hP
    have hblt : b < metas.length := List.mem_range.mp hb
    cases st with
    | none =>
      by_cases hgt : (metas.getD b meta0).area > 0
      · have hstep : findDominantStep metas none b = some (b, (metas.getD b meta0).area) := by
          show (if (metas.getD b meta0).area > 0
            then some (b, (metas.getD b meta0).area) else none) = _
          rw [if_pos hgt]
        rw [hstep]
        exact Or.inr ⟨_, rfl, hblt⟩
      · have hstep : findDominantStep metas none b = none := by
          show (if (metas.getD b meta0).area > 0
            then some (b, (metas.getD b meta0).area) else none) = _
          rw [if_neg hgt]
        rw [hstep]
        exact Or.inl rfl
    | some q =>
      by_cases hgt : (metas.getD b meta0).area > q.2
      · have hstep : findDominantStep metas (some q) b =
            some (b, (metas.getD b meta0).area) := by
          show (if (metas.getD b meta0).area > q.2
            then some (b, (metas.getD b meta0).area) else some q) = _
          rw [if_pos hgt]
        rw [hstep]
        exact Or.inr ⟨_, rfl, hblt⟩
      · have hstep : findDominantStep metas (some q) b = some q := by
          show (if (metas.getD b meta0).area > q.2
            then some (b, (metas.getD b meta0).area) else some q) = _
          rw [if_neg hgt]
        rw [hstep]
        exact hP

lemma artifactFilter_mem (geos : List GeoRec) (shapes : List ShapeOut)
    (metas : List MetaRec) (src : Option SrcInfo)
    (hlen : metas.length = shapes.length) :
    ∀ s ∈ artifactFilter geos shapes metas src, s ∈ shapes := by
  intro s hs
  unfold artifactFilter at hs
  split at hs
  · exact hs
  · split at hs
    · exact hs
    · split at hs
      · exact hs
      · rename_i dIdx hdom
        have hdlt : dIdx < shapes.length := hlen ▸ findDominantIdx_lt metas dIdx hdom
        have hmapmem : ∀ (pred : ℕ → Bool),
            s ∈ ((List.range shapes.length).filter pred).map
              (fun i => shapes.getD i shape0) → s ∈ shapes := by
          intro pred hmem
          rcases List.mem_map.mp hmem with ⟨i, hi, rfl⟩
          exact getD_mem _ _ _ (List.mem_range.mp (List.mem_filter.mp hi).1)
        simp only [] at hs
        split at hs
        · exact hs
        · split at hs
          · simp only [List.mem_singleton] at hs
            rw [hs]
            exact getD_mem _ _ _ hdlt
          · split at hs
            · exact hmapmem _ hs
            · split at hs
              · exact hmapmem _ hs
              · simp only [List.mem_singleton] at hs
                rw [hs]
                exact getD_mem _ _ _ hdlt

/-! ## Pipeline-level validity -/

lemma pipelineCore_dense_inv (cl : List (List Pt)) (ap : List (Option Pt))
    (opts : BuildOpts) (shapes : List ShapeOut)
    (h : pipelineCore cl ap opts = .dense shapes) :
    ∃ geos src, (∀ g ∈ geos, ValidGeo g) ∧
      tryBuildDensePerforatedPanelShape geos src = some shapes := by
  unfold pipelineCore at h
  try simp only [] at h
  split at h
  · exact absurd h (by simp)
  · try simp only [] at h
    split at h
    · rename_i shapes' hdense
      have hs := PipeResult.dense.inj h
      rw [← hs]
      refine ⟨_, _, ?_, hdense⟩
      intro g hg
      rcases applyHullFallback_mem _ _ _ _ g hg with h1 | h1
      · rcases applyForceHull_mem _ _ _ _ g h1 with h2 | h2
        · exact mkInitialGeos_valid cl g h2
        · exact h2
      · exact h1
    · exact absurd h (by simp)

lemma pipelineCore_general_inv (cl : List (List Pt)) (ap : List (Option Pt))
    (opts : BuildOpts) (geos : List GeoRec) (parents : List (Option ℕ))
    (skip : List ℕ) (src : Option SrcInfo)
    (h : pipelineCore cl ap opts = .general geos parents skip src) :
    ∀ g ∈ geos, ValidGeo g := by
  unfold pipelineCore at h
  try simp only [] at h
  split at h
  · exact absurd h (by simp)
  · try simp only [] at h
    split at h
    · exact absurd h (by simp)
    · have hg := (PipeResult.general.inj h).1
      rw [← hg]
      intro g hgm
      rcases applyFragmentedSheet_fst_mem _ _ _ _ g hgm with h1 | h1
      · rcases applyHullFallback_mem _ _ _ _ g h1 with h2 | h2
        · rcases applyForceHull_mem _ _ _ _ g h2 with h3 | h3
          · exact mkInitialGeos_valid cl g h3
          · exact h3
        · exact h2
      · exact h1

/-! ## Smallest-enclosing-parent characterization (C2 support) -/

/-- Loop `j` is an admissible parent candidate for loop `i`: larger area
by more than `1e-8`, bbox containment of `i`'s interior sample at the
default `1e-6` slack, and the sample strictly inside `j`'s closed point
list. -/
def encloses (geos : List GeoRec) (i j : ℕ) : Prop :=
  (geos.getD i geo0).areaAbs + 1e-8 < (geos.getD j geo0).areaAbs ∧
  bboxContainsPoint (geos.getD j geo0).bbox (geos.getD i geo0).sample 1e-6 = true ∧
  pointInPolygonStrict (geos.getD i geo0).sample (geos.getD j geo0).closedPts = true

instance instDecEncloses (geos : List GeoRec) (i j : ℕ) :
    Decidable (encloses geos i j) := by
  unfold encloses
  infer_instance

/-- `r` is the smallest-area enclosing loop of `i` (`none` when no loop
encloses `i`). -/
def smallestEnclosing (geos : List GeoRec) (i : ℕ) (r : Option ℕ) : Prop :=
  match r with
  | none => ∀ j < geos.length, j ≠ i → ¬ encloses geos i j
  | some j => j < geos.length ∧ j ≠ i ∧ encloses geos i j ∧
      ∀ k < geos.length, k ≠ i → encloses geos i k →
        (geos.getD j geo0).areaAbs ≤ (geos.getD k geo0).areaAbs

instance instDecSmallestEnclosing (geos : List GeoRec) (i : ℕ) (r : Option ℕ) :
    Decidable (smallestEnclosing geos i r) := by
  unfold smallestEnclosing
  cases r with
  | none => infer_instance
  | some j => infer_instance

/-- The running state of the `computeParents` inner fold is sound and
complete for the prefix of candidate indices already scanned. -/
def ParentInv (geos : List GeoRec) (i : ℕ) (S : List ℕ) (best : Option ℕ) : Prop :=
  (∀ j, best = some j → j ∈ S ∧ encloses geos i j ∧
    ∀ k ∈ S, encloses geos i k →
      (geos.getD j geo0).areaAbs ≤ (geos.getD k geo0).areaAbs) ∧
  (best = none → ∀ k ∈ S, ¬ encloses geos i k)

lemma foldl_prefix_invariant {σ β : Type} (P : List β → σ → Prop) (f : σ → β → σ)
    (hf : ∀ S st b, P S st → P (S ++ [b]) (f st b)) :
    ∀ (l S : List β) (st : σ), P S st → P (S ++ l) (l.foldl f st) := by
  intro l
  induction l with
  | nil => intro S st h; simpa using h
  | cons b t ih =>
    intro S st h
    have h2 := ih (S ++ [b]) (f st b) (hf S st b h)
    simpa [List.append_assoc] using h2

lemma parentInv_keep (geos : List GeoRec) (i : ℕ) (S : List ℕ) (best : Option ℕ)
    (b : ℕ) (hnb : ¬ encloses geos i b) (h : ParentInv geos i S best) :
    ParentInv geos i (S ++ [b]) best := by
  obtain ⟨hs, hn⟩ := h
  constructor
  · intro j hj
    obtain ⟨hmem, henc, hmin⟩ := hs j hj
    refine ⟨List.mem_append_left _ hmem, henc, ?_⟩
    intro k hk henck
    rcases List.mem_append.mp hk with hk | hk
    · exact hmin k hk henck
    · rw [List.mem_singleton] at hk
      subst hk
      exact absurd henck hnb
  · intro hnone k hk
    rcases List.mem_append.mp hk with hk | hk
    · exact hn hnone k hk
    · rw [List.mem_singleton] at hk
      subst hk
      exact hnb

lemma parentInv_new (geos : List GeoRec) (i : ℕ) (S : List ℕ) (b : ℕ)
    (hb : encloses geos i b)
    (hle : ∀ k ∈ S, encloses geos i k →
      (geos.getD b geo0).areaAbs ≤ (geos.getD k geo0).areaAbs) :
    ParentInv geos i (S ++ [b]) (some b) := by
  constructor
  · intro j hj
    have hjb := Option.some_inj.mp hj
    subst hjb
    refine ⟨List.mem_append_right _ (List.mem_singleton.mpr rfl), hb, ?_⟩
    intro k hk henck
    rcases List.mem_append.mp hk with hk | hk
    · exact hle k hk henck
    · rw [List.mem_singleton] at hk
      subst hk
      exact le_refl _
  · intro hnone
    exact absurd hnone (by simp)

lemma parentStep_inv (geos : List GeoRec) (i : ℕ) (S : List ℕ) (best : Option ℕ)
    (b : ℕ) (h : ParentInv geos i S best) :
    ParentInv geos i (S ++ [b]) (parentStep geos i best b) := by
  unfold parentStep
  by_cases hib : i = b
  · rw [if_pos hib]
    refine parentInv_keep _ _ _ _ _ ?_ h
    intro henc
    have h1 := henc.1
    subst hib
    linarith
  · rw [if_neg hib]
    try simp only []
    by_cases hg1 : ¬ ((geos.getD b geo0).areaAbs > (geos.getD i geo0).areaAbs + 1e-8)
    · rw [if_pos hg1]
      exact parentInv_keep _ _ _ _ _ (fun henc => hg1 henc.1) h
    · rw [if_neg hg1]
      by_cases hg2 : ¬ (bboxContainsPoint (geos.getD b geo0).bbox
          (geos.getD i geo0).sample 1e-6 = true)
      · rw [if_pos hg2]
        exact parentInv_keep _ _ _ _ _ (fun henc => hg2 henc.2.1) h
      · rw [if_neg hg2]
        by_cases hg3 : ¬ (pointInPolygonStrict (geos.getD i geo0).sample
            (geos.getD b geo0).closedPts = true)
        · rw [if_pos hg3]
          exact parentInv_keep _ _ _ _ _ (fun henc => hg3 henc.2.2) h
        · rw [if_neg hg3]
          have hb : encloses geos i b :=
            ⟨not_not.mp hg1, not_not.mp hg2, not_not.mp hg3⟩
          cases best with
          | none =>
            refine parentInv_new _ _ _ _ hb ?_
            intro k hk henck
            exact absurd henck (h.2 rfl k hk)
          | some bb =>
            try simp only []
            by_cases hlt : (geos.getD b geo0).areaAbs < (geos.getD bb geo0).areaAbs
            · rw [if_pos hlt]
              refine parentInv_new _ _ _ _ hb ?_
              intro k hk henck
              have := (h.1 bb rfl).2.2 k hk henck
              linarith
            · rw [if_neg hlt]
              obtain ⟨hmem, henc, hmin⟩ := h.1 bb rfl
              constructor
              · intro j hj
                have hjb := Option.some_inj.mp hj
                subst hjb
                refine ⟨List.mem_append_left _ hmem, henc, ?_⟩
                intro k hk henck
                rcases List.mem_append.mp hk with hk | hk
                · exact hmin k hk henck
                · rw [List.mem_singleton] at hk
                  subst hk
                  exact le_of_not_lt hlt
              · intro hno
                exact absurd hno (by simp)

lemma computeParents_spec (geos : List GeoRec) (i : ℕ) (hi : i < geos.length) :
    smallestEnclosing geos i ((computeParents geos).getD i none) := by
  unfold computeParents
  rw [getD_map_range _ _ _ _ hi]
  try simp only []
  have key := foldl_prefix_invariant (ParentInv geos i) (parentStep geos i)
    (parentStep_inv geos i) (List.range geos.length) [] none ⟨by simp, by simp⟩
  rw [List.nil_append] at key
  cases hb : (List.range geos.length).foldl (parentStep geos i) none with
  | none =>
    rw [hb] at key
    show ∀ j < geos.length, j ≠ i → ¬ encloses geos i j
    intro j hj _
    exact key.2 rfl j (List.mem_range.mpr hj)
  | some j =>
    rw [hb] at key
    obtain ⟨hjmem, henc, hmin⟩ := key.1 j rfl
    show j < geos.length ∧ j ≠ i ∧ encloses geos i j ∧
      ∀ k < geos.length, k ≠ i → encloses geos i k →
        (geos.getD j geo0).areaAbs ≤ (geos.getD k geo0).areaAbs
    refine ⟨List.mem_range.mp hjmem, ?_, henc, ?_⟩
    · intro hji
      have h1 := henc.1
      subst hji
      linarith
    · intro k hk _ henck
      exact hmin k (List.mem_range.mpr hk) henck

/-! ## Claim C1 -/

/-- C1. For every shape emitted by `buildShapesFromClosedLoops` —
including the dense-perforated fast path — the outer boundary has at
least 3 vertices and signed area > 0 (CCW), and every hole has at least
3 vertices and signed area < 0 (CW); loops or holes left with fewer than
3 vertices after orientation are rejected rather than emitted. -/
theorem claim_C1 (closedLoops : List (List Pt)) (allPointsRaw : List (Option Pt))
    (opts : BuildOpts) :
    List.Forall ShapeProp (buildShapesFromClosedLoops closedLoops allPointsRaw opts) := by
  rw [List.forall_iff_forall_mem]
  intro s hs
  unfold buildShapesFromClosedLoops at hs
  split at hs
  · simp at hs
  · rename_i shapes hdense
    rcases pipelineCore_dense_inv _ _ _ shapes hdense with ⟨g2, src2, hv, hd⟩
    exact tryDense_shapeProp _ _ _ hv hd s hs
  · rename_i geos parents skip src hgen
    have hv := pipelineCore_general_inv _ _ _ _ _ _ _ hgen
    try simp only [] at hs
    have hmem := artifactFilter_mem geos (assembleShapes geos parents skip src).1
      (assembleShapes geos parents skip src).2 src
      (assembleShapes_len geos parents skip src) s hs
    exact assembleShapes_shapeProp geos parents skip src hv s hmem

/-! ## Parent-area monotonicity and depth termination -/

/-- Every parent link climbs to a loop whose stored area is larger by
more than `1e-8`; this is the invariant that makes the memoized JS depth
recursion well-founded. -/
def ParentsAreaMono (geos : List GeoRec) (parents : List (Option ℕ)) : Prop :=
  ∀ i j, parents.getD i none = some j →
    (geos.getD i geo0).areaAbs + 1e-8 < (geos.getD j geo0).areaAbs

/-- The number of loops whose stored area strictly exceeds loop `i`'s:
the termination measure of the parent chain. -/
def areaRank (geos : List GeoRec) (parents : List (Option ℕ)) (i : ℕ) : ℕ :=
  ((Finset.range parents.length).filter
    (fun k => (geos.getD i geo0).areaAbs < (geos.getD k geo0).areaAbs)).card

lemma getD_set {α : Type} (l : List α) (k i : ℕ) (v d : α) :
    (l.set k v).getD i d = if k = i ∧ k < l.length then v else l.getD i d := by
  rw [List.getD_eq_getElem?_getD, List.getElem?_set]
  split
  · rename_i h
    split
    · rename_i h2
      rw [if_pos ⟨h, h2⟩]
      rfl
    · rename_i h2
      rw [if_neg (fun hc => h2 hc.2), List.getD_eq_getElem?_getD]
      subst h
      rw [List.getElem?_eq_none_iff.mpr (Nat.le_of_not_lt h2)]
  · rename_i h
    rw [if_neg (fun hc => h hc.1), List.getD_eq_getElem?_getD]

lemma getD_none_of_ge {α : Type} (l : List α) (i : ℕ) (d : α) (h : l.length ≤ i) :
    l.getD i d = d := by
  rw [List.getD_eq_getElem?_getD, List.getElem?_eq_none_iff.mpr h]
  rfl

lemma mono_set (geos : List GeoRec) (ps : List (Option ℕ)) (k : ℕ) (v : Option ℕ)
    (hm : ParentsAreaMono geos ps)
    (hv : ∀ j, v = some j →
      (geos.getD k geo0).areaAbs + 1e-8 < (geos.getD j geo0).areaAbs) :
    ParentsAreaMono geos (ps.set k v) := by
  intro i j hij
  rw [getD_set] at hij
  split at hij
  · rename_i hk
    rcases hk with ⟨hk, _⟩
    subst hk
    exact hv j hij
  · exact hm i j hij

lemma childrenOf_mem (parents : List (Option ℕ)) (p i : ℕ)
    (h : i ∈ childrenOf parents p) : parents.getD i none = some p := by
  unfold childrenOf at h
  have h2 := (List.mem_filter.mp h).2
  simpa using h2

lemma computeParents_mono (geos : List GeoRec) :
    ParentsAreaMono geos (computeParents geos) := by
  intro i j hij
  unfold computeParents at hij
  by_cases hi : i < geos.length
  · rw [getD_map_range _ _ _ _ hi] at hij
    try simp only [] at hij
    refine foldl_state_preserve
      (fun best : Option ℕ => ∀ j, best = some j →
        (geos.getD i geo0).areaAbs + 1e-8 < (geos.getD j geo0).areaAbs)
      (parentStep geos i) (List.range geos.length) ?_ none (by simp) j hij
    intro best b _ hP j' heq
    unfold parentStep at heq
    split at heq
    · exact hP j' heq
    · try simp only [] at heq
      split at heq
      · exact hP j' heq
      · rename_i hgt
        rw [not_not] at hgt
        split at heq
        · exact hP j' heq
        · split at heq
          · exact hP j' heq
          · split at heq
            · have hj := Option.some_inj.mp heq
              subst hj
              exact hgt
            · split at heq
              · have hj := Option.some_inj.mp heq
                subst hj
                exact hgt
              · exact hP j' heq
  · rw [getD_map_range_ge _ _ _ _ hi] at hij
    exact absurd hij (by simp)

lemma pseudoPass_mono (geos : List GeoRec) (parents : List (Option ℕ)) (skip : List ℕ)
    (hm : ParentsAreaMono geos parents) :
    ParentsAreaMono geos (pseudoPass geos parents skip).1 := by
  unfold pseudoPass
  try simp only []
  refine foldl_state_preserve
    (fun st : List (Option ℕ) × List ℕ × Bool => ParentsAreaMono geos st.1)
    _ (List.range geos.length) ?_ (parents, skip, false) hm
  intro st pIdx _ hP
  split
  · exact hP
  · refine foldl_state_preserve
      (fun st : List (Option ℕ) × List ℕ × Bool => ParentsAreaMono geos st.1)
      _ (childrenOf parents pIdx) ?_ st hP
    intro st' cIdx hc hP'
    obtain ⟨ps, sk, changed⟩ := st'
    try simp only []
    split
    · exact hP'
    · split
      · exact hP'
      · split
        · exact hP'
        · split
          · exact hP'
          · refine mono_set _ _ _ _ ?_ (by simp)
            refine foldl_state_preserve (ParentsAreaMono geos)
              _ (childrenOf parents cIdx) ?_ ps hP'
            intro ps' g hg hPg
            refine mono_set _ _ _ _ hPg ?_
            intro j hj
            have hj2 := Option.some_inj.mp hj
            subst hj2
            have h1 := hm g cIdx (childrenOf_mem parents cIdx g hg)
            have h2 := hm cIdx pIdx (childrenOf_mem parents pIdx cIdx hc)
            have h8 : (0:ℚ) < 1e-8 := by norm_num
            linarith

lemma runPseudoPasses_mono (geos : List GeoRec) (fuel : ℕ) :
    ∀ parents skip, ParentsAreaMono geos parents →
      ParentsAreaMono geos (runPseudoPasses geos fuel parents skip).1 := by
  induction fuel with
  | zero => intro parents _ hm; exact hm
  | succ n ih =>
    intro parents skip hm
    unfold runPseudoPasses
    have hmono := pseudoPass_mono geos parents skip hm
    rcases hps : pseudoPass geos parents skip with ⟨p, s, changed⟩
    rw [hps] at hmono
    try simp only []
    split
    · exact ih p s hmono
    · exact hmono

lemma applyFragmentedSheet_mono (geos : List GeoRec) (parents : List (Option ℕ))
    (src : Option SrcInfo) (sourcePts : List Pt)
    (hm : ParentsAreaMono geos parents) :
    ParentsAreaMono (applyFragmentedSheet geos parents src sourcePts).1
      (applyFragmentedSheet geos parents src sourcePts).2 := by
  unfold applyFragmentedSheet
  split
  · exact hm
  · split
    · exact hm
    · try simp only []
      split
      · exact hm
      · try simp only []
        split
        · try simp only []
          split
          · exact computeParents_mono _
          · exact hm
        · exact hm

lemma areaRank_lt (geos : List GeoRec) (parents : List (Option ℕ))
    (hm : ParentsAreaMono geos parents) (i p : ℕ)
    (hp : parents.getD i none = some p) (hpl : p < parents.length) :
    areaRank geos parents p < areaRank geos parents i := by
  have harea := hm i p hp
  have h8 : (0:ℚ) < 1e-8 := by norm_num
  unfold areaRank
  apply Finset.card_lt_card
  rw [Finset.ssubset_def]
  constructor
  · intro k hk
    rw [Finset.mem_filter] at hk ⊢
    refine ⟨hk.1, ?_⟩
    have := hk.2
    linarith
  · intro hsub
    have hpmem : p ∈ (Finset.range parents.length).filter
        (fun k => (geos.getD i geo0).areaAbs < (geos.getD k geo0).areaAbs) := by
      rw [Finset.mem_filter]
      exact ⟨Finset.mem_range.mpr hpl, by linarith⟩
    have hbad := hsub hpmem
    rw [Finset.mem_filter] at hbad
    exact absurd hbad.2 (lt_irrefl _)

lemma areaRank_lt_length (geos : List GeoRec) (parents : List (Option ℕ)) (i : ℕ)
    (hi : i < parents.length) : areaRank geos parents i < parents.length := by
  unfold areaRank
  have h := Finset.card_lt_card (s := (Finset.range parents.length).filter
      (fun k => (geos.getD i geo0).areaAbs < (geos.getD k geo0).areaAbs))
    (t := Finset.range parents.length) ?_
  · simpa using h
  · rw [Finset.ssubset_def]
    refine ⟨Finset.filter_subset _ _, fun hsub => ?_⟩
    have hbad := hsub (Finset.mem_range.mpr hi)
    rw [Finset.mem_filter] at hbad
    exact absurd hbad.2 (lt_irrefl _)

lemma depthOf_none (parents : List (Option ℕ)) (i : ℕ)
    (h : parents.getD i none = none) : ∀ f, depthOf parents f i = 0 := by
  intro f
  cases f with
  | zero => rfl
  | succ n =>
    unfold depthOf
    rw [h]

lemma depthOf_fuel (geos : List GeoRec) (parents : List (Option ℕ))
    (hm : ParentsAreaMono geos parents) :
    ∀ m i f₁ f₂, areaRank geos parents i ≤ m →
      areaRank geos parents i < f₁ → areaRank geos parents i < f₂ →
      depthOf parents f₁ i = depthOf parents f₂ i := by
  intro m
  induction m with
  | zero =>
    intro i f₁ f₂ hr h1 h2
    cases f₁ with
    | zero => omega
    | succ g₁ =>
      cases f₂ with
      | zero => omega
      | succ g₂ =>
        unfold depthOf
        cases hp : parents.getD i none with
        | none => rfl
        | some p =>
          by_cases hpl : p < parents.length
          · have := areaRank_lt geos parents hm i p hp hpl
            omega
          · have hnone : parents.getD p none = none :=
              getD_none_of_ge _ _ _ (Nat.le_of_not_lt hpl)
            show depthOf parents g₁ p + 1 = depthOf parents g₂ p + 1
            rw [depthOf_none parents p hnone g₁, depthOf_none parents p hnone g₂]
  | succ n ih =>
    intro i f₁ f₂ hr h1 h2
    cases f₁ with
    | zero => omega
    | succ g₁ =>
      cases f₂ with
      | zero => omega
      | succ g₂ =>
        unfold depthOf
        cases hp : parents.getD i none with
        | none => rfl
        | some p =>
          show depthOf parents g₁ p + 1 = depthOf parents g₂ p + 1
          by_cases hpl : p < parents.length
          · have hlt := areaRank_lt geos parents hm i p hp hpl
            rw [ih p g₁ g₂ (by omega) (by omega) (by omega)]
          · have hnone : parents.getD p none = none :=
              getD_none_of_ge _ _ _ (Nat.le_of_not_lt hpl)
            rw [depthOf_none parents p hnone g₁, depthOf_none parents p hnone g₂]

lemma depthOf_fuel_ge (geos : List GeoRec) (parents : List (Option ℕ))
    (hm : ParentsAreaMono geos parents) (i m : ℕ) :
    depthOf parents (parents.length + m) i = depthOf parents parents.length i := by
  cases hp : parents.getD i none with
  | none => rw [depthOf_none parents i hp, depthOf_none parents i hp]
  | some p =>
    have hi : i < parents.length := by
      by_contra hge
      rw [getD_none_of_ge _ _ _ (Nat.le_of_not_lt hge)] at hp
      exact absurd hp (by simp)
    have hrank := areaRank_lt_length geos parents i hi
    exact depthOf_fuel geos parents hm (areaRank geos parents i) i _ _ le_rfl
      (by omega) hrank

lemma pipelineCore_empty_iff (cl : List (List Pt)) (ap : List (Option Pt))
    (opts : BuildOpts) :
    pipelineCore cl ap opts = PipeResult.empty ↔ mkInitialGeos cl = [] := by
  unfold pipelineCore
  cases hg : mkInitialGeos cl with
  | nil => simp
  | cons g gs =>
    rw [if_neg (by simp)]
    try simp only []
    constructor
    · intro he
      split at he
      · exact absurd he (by simp)
      · exact absurd he (by simp)
    · intro he
      exact absurd he (by simp)

lemma pipelineCore_parents_mono (cl : List (List Pt)) (ap : List (Option Pt))
    (opts : BuildOpts) :
    ParentsAreaMono (finalGeosOf (pipelineCore cl ap opts))
      (finalParentsOf (pipelineCore cl ap opts)) := by
  rcases hp : pipelineCore cl ap opts with _ | s | ⟨geos, parents, skip, src⟩
  · intro i j hij
    simp [finalParentsOf] at hij
  · intro i j hij
    simp [finalParentsOf] at hij
  · show ParentsAreaMono geos parents
    unfold pipelineCore at hp
    try simp only [] at hp
    split at hp
    · exact absurd hp (by simp)
    · try simp only [] at hp
      split at hp
      · exact absurd hp (by simp)
      · have hinj := PipeResult.general.inj hp
        rw [← hinj.1, ← hinj.2.1]
        exact runPseudoPasses_mono _ 8 _ _
          (applyFragmentedSheet_mono _ _ _ _ (computeParents_mono _))

/-! ## Claim C10 -/

/-- C10. The pipeline is total on every input, degenerate geometry
included: the only propagated failure is the empty document
(`pipelineCore` returns the empty result exactly when no valid loop
record can be built), and the final parent relation is strictly
area-increasing along parent links, so that the JS memoized depth
recursion terminates — concretely, the fuelled `depthOf` is already
stable at fuel `parents.length`, and no amount of extra fuel changes any
depth value. -/
theorem claim_C10 (closedLoops : List (List Pt)) (allPointsRaw : List (Option Pt))
    (opts : BuildOpts) :
    (pipelineCore closedLoops allPointsRaw opts = PipeResult.empty ↔
      mkInitialGeos closedLoops = []) ∧
    ParentsAreaMono (finalGeosOf (pipelineCore closedLoops allPointsRaw opts))
      (finalParentsOf (pipelineCore closedLoops allPointsRaw opts)) ∧
    ∀ i m, depthOf (finalParentsOf (pipelineCore closedLoops allPointsRaw opts))
        ((finalParentsOf (pipelineCore closedLoops allPointsRaw opts)).length + m) i =
      depthOf (finalParentsOf (pipelineCore closedLoops allPointsRaw opts))
        (finalParentsOf (pipelineCore closedLoops allPointsRaw opts)).length i :=
  ⟨pipelineCore_empty_iff closedLoops allPointsRaw opts,
   pipelineCore_parents_mono closedLoops allPointsRaw opts,
   fun i m => depthOf_fuel_ge _ _
     (pipelineCore_parents_mono closedLoops allPointsRaw opts) i m⟩

/-! ## Concrete pipeline inputs -/

/-- An axis-aligned CCW square loop. -/
def sqLoop (x0 y0 x1 y1 : ℚ) : List Pt := [(x0, y0), (x1, y0), (x1, y1), (x0, y1)]

/-- A sheet with a near-full-size inner frame, a centred square and four
tiny border slivers: the frame is skipped as a pseudo-hole and its
children are re-parented to the sheet. -/
def c2Loops : List (List Pt) :=
  [sqLoop 0 0 100 100, sqLoop 1 1 99 99, sqLoop 40 40 60 60,
   sqLoop (992/10) 10 (997/10) (105/10), sqLoop (992/10) 30 (997/10) (305/10),
   sqLoop (992/10) 50 (997/10) (505/10), sqLoop (992/10) 70 (997/10) (705/10)]

def c2All : List (Option Pt) := (sqLoop 0 0 100 100).map some

def c2Opts : BuildOpts := ⟨true, false⟩

/-! ## Claim C2 -/

/-- C2, amended. The final hierarchy satisfies the area half of the
claim: every parent link climbs to a loop of strictly larger area (by
more than `1e-8`).  The smallest-area-enclosing characterization of the
claim describes `computeParents` — the initial hierarchy resolution —
not the final parent assignment, which pseudo-hole normalization may
re-point past the smallest enclosing loop. -/
theorem claim_C2 (cl : List (List Pt)) (ap : List (Option Pt)) (opts : BuildOpts)
    (i : ℕ) (hi : i < (finalGeosOf (pipelineCore cl ap opts)).length) :
    ParentsAreaMono (finalGeosOf (pipelineCore cl ap opts))
      (finalParentsOf (pipelineCore cl ap opts)) ∧
    smallestEnclosing (finalGeosOf (pipelineCore cl ap opts)) i
      ((computeParents (finalGeosOf (pipelineCore cl ap opts))).getD i none) :=
  ⟨pipelineCore_parents_mono cl ap opts, computeParents_spec _ i hi⟩

/-- C2, counterexample to the original claim: in the final hierarchy of
`c2Loops` the centred square (loop 2) is parented to the sheet (loop 0),
yet the skipped frame (loop 1) also encloses it with strictly smaller
area, so the assigned parent is not the smallest-area enclosing loop. -/
theorem claim_C2_counterexample :
    finalParentsOf (pipelineCore c2Loops c2All c2Opts) =
      [none, none, some 0, some 0, some 0, some 0, some 0] ∧
    ¬ smallestEnclosing (finalGeosOf (pipelineCore c2Loops c2All c2Opts)) 2
      ((finalParentsOf (pipelineCore c2Loops c2All c2Opts)).getD 2 none) ∧
    encloses (finalGeosOf (pipelineCore c2Loops c2All c2Opts)) 2 1 ∧
    ((finalGeosOf (pipelineCore c2Loops c2All c2Opts)).getD 1 geo0).areaAbs <
      ((finalGeosOf (pipelineCore c2Loops c2All c2Opts)).getD 0 geo0).areaAbs := by
  decide

/-- C2, witness: the amended theorem applied to a one-square document. -/
theorem claim_C2_witness :
    ParentsAreaMono (finalGeosOf (pipelineCore [sqLoop 0 0 4 4] [] ⟨false, false⟩))
      (finalParentsOf (pipelineCore [sqLoop 0 0 4 4] [] ⟨false, false⟩)) ∧
    smallestEnclosing (finalGeosOf (pipelineCore [sqLoop 0 0 4 4] [] ⟨false, false⟩)) 0
      ((computeParents (finalGeosOf
        (pipelineCore [sqLoop 0 0 4 4] [] ⟨false, false⟩))).getD 0 none) :=
  claim_C2 [sqLoop 0 0 4 4] [] ⟨false, false⟩ 0 (by decide)

/-! ## Claim C5 -/

lemma splitCandidates_area (subLoops : List (List Pt)) :
    ∀ c ∈ splitCandidates subLoops,
      c.area = |polygonAreaSigned c.loopOpen| ∧ 0 ≤ c.area := by
  intro c hc
  unfold splitCandidates at hc
  have h := foldl_mem_invariant
    (fun c : SubCand => c.area = |polygonAreaSigned c.loopOpen| ∧ 0 ≤ c.area)
    _ subLoops ?_ [] c hc
  · rcases h with h | h
    · simp at h
    · exact h
  · intro acc b _ x hx
    split at hx
    · exact Or.inl hx
    · rename_i closedPts hbuild
      try simp only [] at hx
      split at hx
      · exact Or.inl hx
      · try simp only [] at hx
        split at hx
        · exact Or.inl hx
        · rcases List.mem_append.mp hx with h | h
          · exact Or.inl h
          · rw [List.mem_singleton] at h
            subst h
            exact Or.inr ⟨rfl, abs_nonneg _⟩

/-- The loop whose doubled boundary plus a cap makes the splitter emit
overlapping subloops: a 10×10 square traversed twice with a triangular
cap in between.  Signed area 140, bbox area 100, subloop areas 100 and
60. -/
def c5loop : List Pt :=
  [(0, 0), (10, 0), (10, 10), (0, 10),
   (0, 0), (5, 12), (10, 0),
   (0, 0), (10, 0), (10, 10), (0, 10)]

/-- C5, amended. What the dedup stage guarantees is that the emitted
subloops' cumulative area never exceeds the cumulative area of the
extracted candidate subloops — deduplication and sorting only discard.
No bound against the original loop's `|signedArea| + 1e-6` holds, since
re-extraction of a self-overlapping boundary can cover a region twice. -/
theorem claim_C5 (subLoops : List (List Pt)) (quant : ℚ) :
    (((sortLe (fun a b => decide (b.area ≤ a.area))
        (mapValues (dedupByCenter quant (splitCandidates subLoops)))).map
          SubCand.loopOpen).map (fun l => |polygonAreaSigned l|)).sum ≤
      ((splitCandidates subLoops).map SubCand.area).sum := by
  have hperm := sortLe_perm (fun a b => decide (b.area ≤ a.area))
    (mapValues (dedupByCenter quant (splitCandidates subLoops)))
  have hcong : ((sortLe (fun a b => decide (b.area ≤ a.area))
        (mapValues (dedupByCenter quant (splitCandidates subLoops)))).map
          SubCand.loopOpen).map (fun l => |polygonAreaSigned l|) =
      (sortLe (fun a b => decide (b.area ≤ a.area))
        (mapValues (dedupByCenter quant (splitCandidates subLoops)))).map
          SubCand.area := by
    rw [List.map_map]
    apply List.map_congr_left
    intro c hcmem
    have hmem : c ∈ mapValues (dedupByCenter quant (splitCandidates subLoops)) :=
      hperm.mem_iff.mp hcmem
    have hcand := foldl_upsertKeep_values_mem
      (fun c : SubCand => (jround (c.cx / quant), jround (c.cy / quant)))
      (fun c p => decide (c.area > p.area)) (splitCandidates subLoops) c hmem
    have harea := (splitCandidates_area subLoops c hcand).1
    simp only [Function.comp]
    exact harea.symm
  rw [hcong]
  have hsum := (hperm.map SubCand.area).sum_eq
  rw [hsum]
  have hle := foldl_upsertKeep_sum_le
    (fun c : SubCand => (jround (c.cx / quant), jround (c.cy / quant)))
    (fun c p => decide (c.area > p.area)) SubCand.area
    (splitCandidates subLoops) []
    (fun c hc => (splitCandidates_area subLoops c hc).2)
    (by simp [mapValues])
  unfold dedupByCenter
  simpa [mapValues] using hle

/-- C5, counterexample to the original claim: `c5loop` is suspicious by
the area-to-bbox ratio (140/100 > 1.08), yet the splitter's emitted
subloops have cumulative area 160 > 140 + 1e-6. -/
theorem claim_C5_counterexample :
    |polygonAreaSigned c5loop| /
      max EPS (((bboxOfPoints c5loop).maxX - (bboxOfPoints c5loop).minX) *
        ((bboxOfPoints c5loop).maxY - (bboxOfPoints c5loop).minY)) > 1.08 ∧
    ((splitCompoundLoopCandidates c5loop).map (fun l => |polygonAreaSigned l|)).sum >
      |polygonAreaSigned c5loop| + 1e-6 := by
  decide

/-! ## Claim C4 -/

/-- The smallest of the four bbox insets of child `cIdx` inside parent
`pIdx`. -/
def insetMin (geos : List GeoRec) (parentIdx childIdx : ℕ) : ℚ :=
  min (min ((geos.getD childIdx geo0).bbox.minX - (geos.getD parentIdx geo0).bbox.minX)
      ((geos.getD parentIdx geo0).bbox.maxX - (geos.getD childIdx geo0).bbox.maxX))
    (min ((geos.getD childIdx geo0).bbox.minY - (geos.getD parentIdx geo0).bbox.minY)
      ((geos.getD parentIdx geo0).bbox.maxY - (geos.getD childIdx geo0).bbox.maxY))

/-- The pseudo-hole skip condition as the amended claim reads: area ratio
above 0.70, and either six tiny siblings, or the MINIMUM bbox inset
within `[-1e-4, max 4 (min parentW parentH * 0.06)]` together with one of
the three structural triggers. -/
def skipSpec (geos : List GeoRec) (staleParents : List (Option ℕ))
    (parentIdx childIdx : ℕ) : Prop :=
  max 0 (geos.getD childIdx geo0).areaAbs /
      max EPS (geos.getD parentIdx geo0).areaAbs > 0.70 ∧
  (tinySibCount geos staleParents parentIdx childIdx
      (max EPS (geos.getD parentIdx geo0).areaAbs) ≥ 6 ∨
   (insetMin geos parentIdx childIdx ≥ -(1e-4) ∧
    insetMin geos parentIdx childIdx ≤
      max 4 (min (max EPS ((geos.getD parentIdx geo0).bbox.maxX -
          (geos.getD parentIdx geo0).bbox.minX))
        (max EPS ((geos.getD parentIdx geo0).bbox.maxY -
          (geos.getD parentIdx geo0).bbox.minY)) * 0.06) ∧
    (descCount staleParents staleParents.length childIdx ≥ 6 ∨
     tinySibCount geos staleParents parentIdx childIdx
       (max EPS (geos.getD parentIdx geo0).areaAbs) ≥ 8 ∨
     (max 0 (geos.getD childIdx geo0).areaAbs /
        max EPS (geos.getD parentIdx geo0).areaAbs > 0.82 ∧
      tinySibCount geos staleParents parentIdx childIdx
        (max EPS (geos.getD parentIdx geo0).areaAbs) ≥ 4))))

/-- C4, amended. `shouldSkipAsPseudoHole` holds exactly when the area
ratio exceeds 0.70 and either six tiny siblings exist, or the MINIMUM of
the four bbox insets (not all four) lies in
`[-1e-4, max 4 (min parentW parentH * 0.06)]` and one of the structural
triggers fires (≥6 descendants, ≥8 tiny siblings, or ratio > 0.82 with
≥4 tiny siblings).  The pass marks such children skipped; a skipped
child's parent is reset to none only when it has children to re-parent
(see the counterexample for the childless case). -/
theorem claim_C4 (geos : List GeoRec) (staleParents : List (Option ℕ))
    (parentIdx childIdx : ℕ) :
    shouldSkipAsPseudoHole geos staleParents parentIdx childIdx = true ↔
      skipSpec geos staleParents parentIdx childIdx := by
  unfold shouldSkipAsPseudoHole skipSpec insetMin
  try simp only []
  split
  · rename_i h1
    constructor
    · intro h; exact absurd h (by simp)
    · intro hs; exact absurd hs.1 h1
  · rename_i h1
    rw [not_not] at h1
    split
    · rename_i h2
      exact ⟨fun _ => ⟨h1, Or.inl h2.2⟩, fun _ => rfl⟩
    · rename_i h2
      have htiny : ¬ (tinySibCount geos staleParents parentIdx childIdx
          (max EPS (geos.getD parentIdx geo0).areaAbs) ≥ 6) :=
        fun ht => h2 ⟨by linarith, ht⟩
      split
      · rename_i h3
        constructor
        · intro h; exact absurd h (by simp)
        · intro hs
          rcases hs.2 with ht | hrest
          · exact (htiny ht).elim
          · exact (h3 hrest.1).elim
      · rename_i h3
        rw [not_not] at h3
        split
        · rename_i h4
          constructor
          · intro h; exact absurd h (by simp)
          · intro hs
            rcases hs.2 with ht | hrest
            · exact (htiny ht).elim
            · exact (h4 hrest.2.1).elim
        · rename_i h4
          rw [not_not] at h4
          split
          · rename_i h5
            exact ⟨fun _ => ⟨h1, Or.inr ⟨h3, h4, Or.inl h5⟩⟩, fun _ => rfl⟩
          · rename_i h5
            split
            · rename_i h6
              exact (htiny (by omega)).elim
            · rename_i h6
              split
              · rename_i h7
                exact ⟨fun _ => ⟨h1, Or.inr ⟨h3, h4, Or.inr (Or.inr h7)⟩⟩,
                  fun _ => rfl⟩
              · rename_i h7
                constructor
                · intro h; exact absurd h (by simp)
                · intro hs
                  rcases hs.2 with ht | ⟨_, _, hrest⟩
                  · exact (htiny ht).elim
                  · rcases hrest with h5' | h6' | h7'
                    · exact (h5 h5').elim
                    · exact (h6 h6').elim
                    · exact (h7 h7').elim

/-- A sheet with a deeply inset childless frame and four tiny loops that
sit outside the frame: the frame is skipped although its right inset
(10) exceeds the bound 6, and, being childless, it keeps its parent. -/
def c4Loops : List (List Pt) :=
  [sqLoop 0 0 100 100, sqLoop (1/2) (1/2) 90 (995/10),
   sqLoop 95 10 96 11, sqLoop 95 30 96 31, sqLoop 95 50 96 51, sqLoop 95 70 96 71]

def c4All : List (Option Pt) := (sqLoop 0 0 100 100).map some

def c4Opts : BuildOpts := ⟨true, false⟩

/-- C4, counterexample to the original claim: loop 1 of `c4Loops` is
skipped even though its right bbox inset exceeds
`max 4 (min parentW parentH * 0.06)` — so not all four insets lie in the
claimed interval — and, having no children, its parent is left as loop 0
instead of being reset to −1. -/
theorem claim_C4_counterexample :
    shouldSkipAsPseudoHole (mkInitialGeos c4Loops)
      (computeParents (mkInitialGeos c4Loops)) 0 1 = true ∧
    ((mkInitialGeos c4Loops).getD 0 geo0).bbox.maxX -
        ((mkInitialGeos c4Loops).getD 1 geo0).bbox.maxX >
      max 4 (min (max EPS (((mkInitialGeos c4Loops).getD 0 geo0).bbox.maxX -
          ((mkInitialGeos c4Loops).getD 0 geo0).bbox.minX))
        (max EPS (((mkInitialGeos c4Loops).getD 0 geo0).bbox.maxY -
          ((mkInitialGeos c4Loops).getD 0 geo0).bbox.minY)) * 0.06) ∧
    finalSkipOf (pipelineCore c4Loops c4All c4Opts) = [1] ∧
    (finalParentsOf (pipelineCore c4Loops c4All c4Opts)).getD 1 none = some 0 := by
  decide

/-! ## Claim C6 -/

/-- The claim's existential reading of a strong container contour: SOME
loop contains at least `min 3 (loops-1)` of the other loops' samples and
has area at least `max (6 * secondLargest) (0.002 * bboxArea)`. -/
def strongContainerSpec (geos : List GeoRec) (bboxArea : ℚ) : Prop :=
  ∃ j < geos.length, countOthersInside geos j ≥ min 3 (geos.length - 1) ∧
    (geos.getD j geo0).areaAbs ≥ max (secondLargestArea geos * 6) (bboxArea * 0.002)

instance instDecStrongContainerSpec (geos : List GeoRec) (bboxArea : ℚ) :
    Decidable (strongContainerSpec geos bboxArea) := by
  unfold strongContainerSpec
  infer_instance

/-- The exact conditions under which the hull-fallback gate appends the
synthetic hull loop. -/
def hullAppendCond (geos : List GeoRec) (s : SrcInfo) (sourcePts : List Pt) : Prop :=
  sourcePts.length ≥ 3 ∧
  ¬ geos.any (fun x => decide (x.areaAbs > s.area * 0.05)) = true ∧
  (¬ ((geos.map GeoRec.areaAbs).foldl max 0 > s.area * 0.01) ∨
    ¬ strongContainerContour geos s.area = true) ∧
  (convexHullFromPoints sourcePts).length ≥ 3 ∧
  (makeLoopRecord (convexHullFromPoints sourcePts) (some (srcBBox s))).isSome = true

/-- C6, amended. With hull fallback allowed and source info present, the
hull loop is appended exactly when the source has ≥3 points, a hull of
≥3 vertices with a valid loop record, no loop exceeds
`0.05·sourceBBoxArea`, and either no loop exceeds `0.01·sourceBBoxArea`
or `strongContainerContour` fails — where the code's
`strongContainerContour` examines only the largest-area loop, requires
at least 2 loops, and uses the threshold `max 1 (min 3 (loops-1))`,
unlike the claim's existential form over all loops. -/
theorem claim_C6 (geos : List GeoRec) (s : SrcInfo) (sourcePts : List Pt) :
    (applyHullFallback geos (some s) sourcePts true).length = geos.length + 1 ↔
      hullAppendCond geos s sourcePts := by
  unfold applyHullFallback hullAppendCond
  split
  · rename_i hmatch
    exact absurd hmatch (by simp)
  · rename_i s' hmatch
    injection hmatch with hss
    subst hss
    split
    · rename_i hc
      try simp only []
      split
      · rename_i hadd
        split
        · rename_i hhull
          split
          · rename_i r hmk
            constructor
            · intro _
              exact ⟨hc.2, hadd.1, hadd.2, hhull, by rw [hmk]; rfl⟩
            · intro _
              simp
          · rename_i hmk
            constructor
            · intro h
              exact absurd h (by omega)
            · intro hcond
              have := hcond.2.2.2.2
              rw [hmk] at this
              exact absurd this (by simp)
        · rename_i hhull
          constructor
          · intro h
            exact absurd h (by omega)
          · intro hcond
            exact (hhull hcond.2.2.2.1).elim
      · rename_i hadd
        constructor
        · intro h
          exact absurd h (by omega)
        · intro hcond
          exact (hadd ⟨hcond.2.1, hcond.2.2.1⟩).elim
    · rename_i hc
      constructor
      · intro h
        exact absurd h (by omega)
      · intro hcond
        exact (hc ⟨rfl, hcond.1⟩).elim

/-- One small square centred in a 10×10 source field. -/
def c6Loops : List (List Pt) := [sqLoop 4 4 6 6]

def c6Pts : List Pt := sqLoop 0 0 10 10

def c6Src : SrcInfo := ⟨0, 0, 10, 10, 100⟩

/-- C6, counterexample to the original claim: with a single 2×2 loop in
a 10×10 source field, the claim's existential strong-container form is
satisfied (the threshold `min 3 (loops-1)` degenerates to 0) while the
largest loop exceeds `0.01·sourceBBoxArea`, so the claim predicts no
hull; the code's `strongContainerContour` returns false below 2 loops
and the hull IS appended. -/
theorem claim_C6_counterexample :
    srcInfoOf c6Pts = some c6Src ∧
    strongContainerSpec (mkInitialGeos c6Loops) c6Src.area ∧
    ((mkInitialGeos c6Loops).map GeoRec.areaAbs).foldl max 0 > c6Src.area * 0.01 ∧
    ¬ (mkInitialGeos c6Loops).any
      (fun x => decide (x.areaAbs > c6Src.area * 0.05)) = true ∧
    strongContainerContour (mkInitialGeos c6Loops) c6Src.area = false ∧
    (applyHullFallback (mkInitialGeos c6Loops) (some c6Src) c6Pts true).length =
      (mkInitialGeos c6Loops).length + 1 := by
  decide

/-! ## Claim C7 -/

/-- C7, amended. The CNC primitive normalizer samples a positive-radius
circle with `max 8 ⌈2π·r / 0.8⌉` steps: the guaranteed minimum vertex
count is 8 (9 when the closing sample is kept), not 12, and for the
radius-2 circle of the square-with-circle scenario the hole contour has
16 or 17 vertices, not ≈72 (the 72-gon belongs to the `dxf-parser`
fallback path, not this parser). -/
theorem claim_C7 (radius : ℚ) (popClose : Bool) (hr : 0 < radius) :
    8 ≤ circleVertexCountCnc radius popClose ∧
    (radius = 2 → circleVertexCountCnc radius popClose =
      17 - (if popClose then 1 else 0)) := by
  constructor
  · unfold circleVertexCountCnc arcStepsJS
    rw [if_neg (not_le.mpr hr)]
    have h := Nat.le_max_left 8
      (Int.toNat ⌈piJS * sweepNorm (360 - 0) / 180 * radius / max (4 / 5) 0.05⌉)
    cases popClose
    · rw [if_neg (by simp)]
      omega
    · rw [if_pos rfl]
      omega
  · intro h2
    subst h2
    cases popClose <;> decide

/-- C7, witness: the amended theorem at radius `1/10`. -/
theorem claim_C7_witness :
    (0 : ℚ) < 1 / 10 ∧
    (8 ≤ circleVertexCountCnc (1 / 10) true ∧
      ((1 : ℚ) / 10 = 2 → circleVertexCountCnc (1 / 10) true =
        17 - (if true then 1 else 0))) :=
  ⟨by decide, claim_C7 (1 / 10) true (by decide)⟩

/-- C7, counterexample to the original claim: an emitted radius-`1/10`
circle has exactly 8 vertices (below the claimed minimum 12), and the
radius-2 circle yields 16 or 17 vertices, nowhere near 72. -/
theorem claim_C7_counterexample :
    circleVertexCountCnc (1 / 10) true = 8 ∧
    circleEmittedCnc (1 / 10) true = true ∧
    circleVertexCountCnc 2 true = 16 ∧
    circleVertexCountCnc 2 false = 17 := by
  decide

/-! ## Claim C9 -/

/-- Manhattan segment length: agrees with the Euclidean length on the
axis-aligned segments used in the concrete statements. -/
def manh (a b : Pt) : ℚ := |a.1 - b.1| + |a.2 - b.2|

lemma cleanDrop_aux (L : Pt → Pt → ℚ) (P pts : List Pt) (cl closed : Bool) (req : ℕ)
    (h : (if P.length < req then none
          else if contourPolylineLength L P cl ≤ 0.10 then none
          else some (P, cl)) = some (pts, closed))
    (hreq : 2 ≤ req) :
    0.10 < contourPolylineLength L pts closed ∧
    (closed = false → 2 ≤ pts.length) := by
  split at h
  · exact absurd h (by simp)
  · rename_i hlen
    split at h
    · exact absurd h (by simp)
    · rename_i hdrop
      have hinj := Option.some_inj.mp h
      rw [Prod.mk.injEq] at hinj
      rw [← hinj.1, ← hinj.2]
      refine ⟨lt_of_not_le hdrop, fun _ => ?_⟩
      omega

/-- C9, amended. The polyline-length ≤ 0.10 drop of the contour cleaner
is unconditional: EVERY surviving contour — open contours included — has
polyline length above 0.10 (and open contours additionally keep at least
2 points). -/
theorem claim_C9 (L : Pt → Pt → ℚ) (c : RawContour) (pts : List Pt) (closed : Bool)
    (h : cleanOneContour L c = some (pts, closed)) :
    0.10 < contourPolylineLength L pts closed ∧
    (closed = false → 2 ≤ pts.length) := by
  unfold cleanOneContour at h
  try simp only [] at h
  exact cleanDrop_aux L _ pts _ closed _ h (by split <;> omega)

/-- C9, witness: the amended theorem applied to a kept 5-unit open
segment. -/
theorem claim_C9_witness :
    cleanOneContour manh ([some (0, 0), some (5, 0)], false) =
      some ([(0, 0), (5, 0)], false) ∧
    (0.10 < contourPolylineLength manh [(0, 0), (5, 0)] false ∧
      (false = false → 2 ≤ ([(0, 0), (5, 0)] : List Pt).length)) :=
  ⟨by decide, claim_C9 manh ([some (0, 0), some (5, 0)], false) [(0, 0), (5, 0)] false
    (by decide)⟩

/-- C9, counterexample to the original claim: an open two-point contour
of length `1/20` survives dedup with 2 points — the claim says it is
kept regardless of length — yet the cleaner drops it. -/
theorem claim_C9_counterexample :
    cleanContourPoints [some (0, 0), some (1 / 20, 0)] = [(0, 0), (1 / 20, 0)] ∧
    cleanOneContour manh ([some (0, 0), some (1 / 20, 0)], false) = none := by
  decide

/-! ## Claim C3 -/

/-- C3. The dense-perforated fast path fires exactly when at least 220
loop records exist, the first strictly-largest positive-area loop covers
at least `0.30·sourceBBoxArea`, at least 120 loops lie strictly inside
it with area at most `0.02·sourceBBoxArea`, the candidates have a
positive bbox dimension for the median (so the dedup quantum
`clamp(median·0.03, 1e-4, 0.25)` is defined), and at least 90 holes
survive the center dedup keeping the largest area per cell; it then
emits exactly one shape — the largest loop oriented CCW plus the
deduplicated children oriented CW — and the dense result short-circuits
the rest of the pipeline. -/
theorem claim_C3 (geos : List GeoRec) (s : SrcInfo) (shapes : List ShapeOut) :
    (tryBuildDensePerforatedPanelShape geos (some s) = some shapes ↔
      (220 ≤ geos.length ∧
       ∃ pr, findMaxIdxPos geos = some pr ∧
         s.area * 0.30 ≤ pr.2 ∧
         120 ≤ (denseCandidatesOf geos s pr.1).length ∧
         ¬ (denseMinDims (denseCandidatesOf geos s pr.1)).isEmpty = true ∧
         90 ≤ (denseDedupHoles (denseCandidatesOf geos s pr.1)
           (denseQuantOf (denseMinDims (denseCandidatesOf geos s pr.1)))).length ∧
         shapes = [⟨orientLoop (geos.getD pr.1 geo0).openPts false,
           ((denseDedupHoles (denseCandidatesOf geos s pr.1)
             (denseQuantOf (denseMinDims (denseCandidatesOf geos s pr.1)))).map
               (fun h => orientLoop h.openPts true)).filter
             (fun l => l.length ≥ 3)⟩])) ∧
    (∀ cl ap opts, pipelineCore cl ap opts = PipeResult.dense shapes →
       buildShapesFromClosedLoops cl ap opts = shapes) := by
  constructor
  · constructor
    · intro h
      unfold tryBuildDensePerforatedPanelShape at h
      split at h
      · rename_i hm
        exact absurd hm (by simp)
      · rename_i s' hm
        injection hm with hss
        subst hss
        split at h
        · exact absurd h (by simp)
        · rename_i h220
          split at h
          · exact absurd h (by simp)
          · rename_i pr hfm
            split at h
            · exact absurd h (by simp)
            · rename_i h30
              try simp only [] at h
              split at h
              · exact absurd h (by simp)
              · rename_i h120
                try simp only [] at h
                split at h
                · exact absurd h (by simp)
                · rename_i hmd
                  try simp only [] at h
                  split at h
                  · exact absurd h (by simp)
                  · rename_i h90
                    have hs := Option.some_inj.mp h
                    exact ⟨by omega, pr, hfm, le_of_not_lt h30, by omega, hmd,
                      by omega, hs.symm⟩
    · intro h
      obtain ⟨h220, pr, hfm, h30, h120, hmd, h90, hsh⟩ := h
      unfold tryBuildDensePerforatedPanelShape
      split
      · rename_i hm
        exact absurd hm (by simp)
      · rename_i s' hm
        injection hm with hss
        subst hss
        rw [if_neg (by omega : ¬ geos.length < 220), hfm]
        split
        · rename_i hm2
          exact absurd hm2 (by simp)
        · rename_i pr' hm2
          injection hm2 with hpr
          subst hpr
          rw [if_neg (not_lt.mpr h30)]
          try simp only []
          rw [if_neg (by omega : ¬ (denseCandidatesOf geos s pr.1).length < 120)]
          try simp only []
          rw [if_neg hmd]
          try simp only []
          rw [if_neg (by omega :
            ¬ (denseDedupHoles (denseCandidatesOf geos s pr.1)
              (denseQuantOf (denseMinDims (denseCandidatesOf geos s pr.1)))).length < 90)]
          rw [hsh]
  · intro cl ap opts hp
    unfold buildShapesFromClosedLoops
    rw [hp]

/-! ## Claim C8 -/

/-- Four LINE primitives forming a 10×10 square with 0.5-unit endpoint
gaps at the corners. -/
def c8Raw : List RawContour :=
  [([some (0, 0), some (19 / 2, 0)], false),
   ([some (10, 0), some (10, 19 / 2)], false),
   ([some (10, 10), some (1 / 2, 10)], false),
   ([some (0, 10), some (0, 1 / 2)], false)]

/-- The cleaned, normalized document of `c8Raw` (the cluster filter
reverses the contour order). -/
def c8Doc : NormDoc :=
  ⟨[([(0, 10), (0, 1 / 2)], false), ([(10, 10), (1 / 2, 10)], false),
    ([(10, 0), (10, 19 / 2)], false), ([(0, 0), (19 / 2, 0)], false)], 10, 10⟩

/-- C8, amended. For the gap-cornered square, every tolerance the import
stage tries — segment extraction at 1e-4, 1e-2, 5e-2 and the stitcher at
`clamp(minSide·0.005, 0.05, 0.6) = 0.05` — is below the 0.5 corner gap,
so the square is NOT closed: the import stage emits no shape at all, and
the engine instead flags the document for a raw line/arc re-parse. -/
theorem claim_C8 :
    normalizeContoursCnc manh c8Raw = some c8Doc ∧
    max 0.05 (min 0.6 (max 1 (min c8Doc.width c8Doc.height) * 0.005)) = 1 / 20 ∧
    (1 / 20 : ℚ) < 1 / 2 ∧
    importShapesStage c8Doc true = [] ∧
    importShapesStage c8Doc false = [] ∧
    shouldReparseInRawLineArcMode c8Doc = true := by
  decide

/-- C8, counterexample to the original claim: the pipeline output for the
gap-cornered square is empty — not one hole-free shape — and even the
open-contour stitcher at its clamped tolerance `1/20` closes nothing. -/
theorem claim_C8_counterexample :
    (importShapesStage c8Doc true).length = 0 ∧
    ¬ (importShapesStage c8Doc true).length = 1 ∧
    stitchClosedLoopsFromOpenContours (c8Doc.contours.map Prod.fst) (1 / 20) = [] := by
  decide

end DxfViewer
